import Mathlib

/-
Verification development for the AR classroom planner.

The definitions below are a shallow embedding of the Python source:
  objects.py  -- Point3D and Object3D records
  camera.py   -- orbit camera: position, basis, project, screen_to_ray, unproject
  app.py      -- history manager (save_state / undo / redo), interaction handlers,
                 hit testing (get_object_at_mouse)

Python floats are modelled as real numbers; Python ints as Lean integers.
Python list slicing and indexing (including the negative-index convention) are
modelled by pySliceTo and pyGet.  Where Python would raise an IndexError on an
out-of-range history cursor (impossible for the states the application builds),
the model leaves the state unchanged; no claim depends on that path.
-/

namespace ARPlan

/-- Value type of 3D points (objects.py, Point3D), coordinates modelled as reals. -/
@[ext]
structure Point3D where
  x : ℝ
  y : ℝ
  z : ℝ

/-- Furniture instance record (objects.py, Object3D).  The selected field has
default value false, exactly as the dataclass declares. -/
@[ext]
structure Object3D where
  name : String
  position : Point3D
  rotation : ℝ
  obj_type : String
  id : ℤ
  scale : ℝ
  selected : Bool := false

/-- Per-object deep copy built by save_state, undo and redo (app.py lines
130-137, 147-154 and 159-166): a new Object3D is constructed from name, a fresh
Point3D with the same coordinates, rotation, obj_type, id and scale; the
selected field is not passed and therefore takes its default value false. -/
def copyObj (o : Object3D) : Object3D :=
  { name := o.name
    position := ⟨o.position.x, o.position.y, o.position.z⟩
    rotation := o.rotation
    obj_type := o.obj_type
    id := o.id
    scale := o.scale }

/-- Deep copy of a whole object list, as built by the comprehensions in
save_state, undo and redo. -/
def copyList (l : List Object3D) : List Object3D := l.map copyObj

/-- Python slice l[:n]: a negative stop counts from the end (clamped at 0). -/
def pySliceTo {α : Type} (l : List α) (n : ℤ) : List α :=
  if 0 ≤ n then l.take n.toNat
  else l.take ((l.length : ℤ) + n).toNat

/-- Python indexing l[i]: a negative index counts from the end; an index out of
range yields none (Python would raise IndexError). -/
def pyGet {α : Type} (l : List α) (i : ℤ) : Option α :=
  if 0 ≤ i then l[i.toNat]?
  else if 0 ≤ (l.length : ℤ) + i then l[((l.length : ℤ) + i).toNat]? else none

/-- History capacity self.max_history (app.py line 81). -/
def max_history : ℕ := 50

/-- The part of AdvancedClassroomPlanner state that the history manager and the
secondary-button release handler read and write (app.py). -/
structure AppState where
  objects : List Object3D := []
  history : List (List Object3D) := []
  history_index : ℤ := -1
  selected_object : Option Object3D := none
  dragging_camera : Bool := false
  right_click_start : Option (ℤ × ℤ) := none

/-- Initial state: empty scene, empty history, cursor -1 (app.py lines 66-81). -/
def initState : AppState := {}

/-- History after the truncation step of save_state (app.py lines 128-129):
when the cursor is not at the end of the list, everything after the cursor is
discarded. -/
def truncHist (st : AppState) : List (List Object3D) :=
  if st.history_index < (st.history.length : ℤ) - 1
  then pySliceTo st.history (st.history_index + 1)
  else st.history

/-- app.py save_state (lines 127-142): truncate the forward branch, append a
deep copy of the live object list; then either drop the oldest entry (when the
list now exceeds max_history) or advance the cursor by one. -/
def save_state (st : AppState) : AppState :=
  if (truncHist st ++ [copyList st.objects]).length > max_history then
    { st with history := (truncHist st ++ [copyList st.objects]).tail }
  else
    { st with history := truncHist st ++ [copyList st.objects]
              history_index := st.history_index + 1 }

/-- app.py undo (lines 144-154): when the cursor is positive, decrement it and
replace the live object list by a deep copy of the snapshot at the new cursor. -/
def undo (st : AppState) : AppState :=
  if 0 < st.history_index then
    match pyGet st.history (st.history_index - 1) with
    | some s => { st with history_index := st.history_index - 1, objects := copyList s }
    | none => st
  else st

/-- app.py redo (lines 156-166): when the cursor is not at the last index,
increment it and replace the live object list by a deep copy of the snapshot at
the new cursor. -/
def redo (st : AppState) : AppState :=
  if st.history_index < (st.history.length : ℤ) - 1 then
    match pyGet st.history (st.history_index + 1) with
    | some s => { st with history_index := st.history_index + 1, objects := copyList s }
    | none => st
  else st

/-- A sequence of commits: each element of states becomes the live object list
and save_state is called, as happens on successive scene edits. -/
def commitAll (states : List (List Object3D)) (st : AppState) : AppState :=
  states.foldl (fun acc objs => save_state { acc with objects := objs }) st

/-- A copied object always carries selected = false. -/
theorem copyObj_selected (o : Object3D) : (copyObj o).selected = false := rfl

/-- Copying is idempotent on single objects. -/
theorem copyObj_copyObj (o : Object3D) : copyObj (copyObj o) = copyObj o := rfl

/-- Copying is idempotent on object lists. -/
theorem copyList_idem (l : List Object3D) : copyList (copyList l) = copyList l := by
  simp only [copyList, List.map_map]
  exact List.map_congr_left fun o _ => copyObj_copyObj o

/-- Every member of a copied list has selected = false. -/
theorem mem_copyList_selected (l : List Object3D) (o : Object3D) (h : o ∈ copyList l) :
    o.selected = false := by
  rcases List.mem_map.mp h with ⟨a, _, rfl⟩
  rfl

/-- Invariant maintained by the application loop: the history cursor sits at the
last entry and the history is within capacity. -/
def AtEnd (st : AppState) : Prop :=
  st.history_index = (st.history.length : ℤ) - 1 ∧ st.history.length ≤ max_history

theorem atEnd_init : AtEnd initState := by
  constructor <;> simp [initState, max_history]

theorem truncHist_atEnd (st : AppState) (h : AtEnd st) : truncHist st = st.history := by
  obtain ⟨hidx, hlen⟩ := h
  unfold truncHist
  rw [if_neg (by omega : ¬ st.history_index < (st.history.length : ℤ) - 1)]

theorem save_state_atEnd (st : AppState) (h : AtEnd st) :
    AtEnd (save_state st) ∧
      (save_state st).history.length = min (st.history.length + 1) max_history := by
  obtain ⟨hidx, hlen⟩ := h
  unfold save_state
  rw [truncHist_atEnd st ⟨hidx, hlen⟩]
  have hlenapp : (st.history ++ [copyList st.objects]).length = st.history.length + 1 := by
    simp
  by_cases hcap : (st.history ++ [copyList st.objects]).length > max_history
  · rw [if_pos hcap]
    have hlen50 : st.history.length = max_history := by omega
    have htl : (st.history ++ [copyList st.objects]).tail.length = max_history := by
      rw [List.length_tail]
      omega
    refine ⟨⟨?_, ?_⟩, ?_⟩
    · show st.history_index = ((st.history ++ [copyList st.objects]).tail.length : ℤ) - 1
      rw [htl]
      omega
    · show (st.history ++ [copyList st.objects]).tail.length ≤ max_history
      omega
    · show (st.history ++ [copyList st.objects]).tail.length = min (st.history.length + 1) max_history
      omega
  · rw [if_neg hcap]
    refine ⟨⟨?_, ?_⟩, ?_⟩
    · show st.history_index + 1 = ((st.history ++ [copyList st.objects]).length : ℤ) - 1
      rw [hlenapp]
      omega
    · show (st.history ++ [copyList st.objects]).length ≤ max_history
      omega
    · show (st.history ++ [copyList st.objects]).length = min (st.history.length + 1) max_history
      omega

theorem commitAll_atEnd (sts : List (List Object3D)) :
    ∀ st : AppState, AtEnd st →
      AtEnd (commitAll sts st) ∧
        (commitAll sts st).history.length = min (st.history.length + sts.length) max_history := by
  induction sts with
  | nil =>
    intro st h
    obtain ⟨hidx, hlen⟩ := h
    refine ⟨⟨hidx, hlen⟩, ?_⟩
    simp only [commitAll, List.foldl_nil, List.length_nil, Nat.add_zero]
    omega
  | cons s rest ih =>
    intro st h
    have hstep := save_state_atEnd { st with objects := s } ⟨h.1, h.2⟩
    have hrec := ih (save_state { st with objects := s }) hstep.1
    refine ⟨hrec.1, ?_⟩
    have : commitAll (s :: rest) st = commitAll rest (save_state { st with objects := s }) := by
      simp [commitAll]
    rw [this, hrec.2, hstep.2]
    simp only [List.length_cons]
    omega

/-- Truncation only keeps entries that were already in the history. -/
theorem truncHist_subset (st : AppState) : ∀ l ∈ truncHist st, l ∈ st.history := by
  intro l hl
  unfold truncHist at hl
  split at hl
  · unfold pySliceTo at hl
    split at hl <;> exact List.mem_of_mem_take hl
  · exact hl

/-- Every snapshot a commit stores is a copyList image (hence fixed by
copyList). -/
theorem save_state_copies (st : AppState) (h : ∀ l ∈ st.history, copyList l = l) :
    ∀ l ∈ (save_state st).history, copyList l = l := by
  intro l hl
  have hsub : ∀ l' ∈ truncHist st ++ [copyList st.objects], copyList l' = l' := by
    intro l' hl'
    rcases List.mem_append.mp hl' with h1 | h2
    · exact h l' (truncHist_subset st l' h1)
    · rcases List.mem_singleton.mp h2 with rfl
      exact copyList_idem _
  unfold save_state at hl
  split at hl
  · exact hsub l (List.mem_of_mem_tail hl)
  · exact hsub l hl

theorem commitAll_copies (sts : List (List Object3D)) :
    ∀ st : AppState, (∀ l ∈ st.history, copyList l = l) →
      ∀ l ∈ (commitAll sts st).history, copyList l = l := by
  induction sts with
  | nil => intro st h; simpa [commitAll] using h
  | cons s rest ih =>
    intro st h
    have : commitAll (s :: rest) st = commitAll rest (save_state { st with objects := s }) := by
      simp [commitAll]
    rw [this]
    exact ih _ (save_state_copies { st with objects := s } h)

/-- Characterization of iterated undo from a cursor k strictly less than the
history length: m ≤ k undos keep the history, move the cursor to k - m and,
when m is positive, load the snapshot at index k - m. -/
theorem undo_iter (m : ℕ) :
    ∀ (k : ℕ) (st : AppState), st.history_index = (k : ℤ) → k < st.history.length → m ≤ k →
      (undo^[m] st).history = st.history ∧
      (undo^[m] st).history_index = ((k - m : ℕ) : ℤ) ∧
      (0 < m → (undo^[m] st).objects = copyList (st.history.getD (k - m) [])) := by
  induction m with
  | zero =>
    intro k st hidx hk _
    simp [hidx]
  | succ m ih =>
    intro k st hidx hk hm
    have hk1 : 1 ≤ k := by omega
    have hstep : undo st = { st with history_index := (k : ℤ) - 1, objects := copyList (st.history.getD (k - 1) []) } := by
      unfold undo
      rw [if_pos (show 0 < st.history_index by omega)]
      have hg : pyGet st.history (st.history_index - 1) = some (st.history.getD (k - 1) []) := by
        unfold pyGet
        rw [if_pos (show (0 : ℤ) ≤ st.history_index - 1 by omega)]
        have htn : (st.history_index - 1).toNat = k - 1 := by omega
        rw [htn, List.getElem?_eq_getElem (show k - 1 < st.history.length by omega),
          List.getD_eq_getElem st.history [] (show k - 1 < st.history.length by omega)]
      rw [hg, hidx]
    rw [Function.iterate_succ_apply, hstep]
    have hrec := ih (k - 1)
      { st with history_index := (k : ℤ) - 1, objects := copyList (st.history.getD (k - 1) []) }
      (show (k : ℤ) - 1 = ((k - 1 : ℕ) : ℤ) by omega)
      (show k - 1 < st.history.length by omega) (by omega)
    refine ⟨hrec.1, ?_, ?_⟩
    · rw [hrec.2.1]
      omega
    · intro _
      by_cases hm0 : 0 < m
      · have hO := hrec.2.2 hm0
        rw [hO]
        show copyList (st.history.getD (k - 1 - m) []) = copyList (st.history.getD (k - (m + 1)) [])
        congr 2
        omega
      · have hm0' : m = 0 := by omega
        subst hm0'
        simp only [Function.iterate_zero, id]

/-- Undo is a no-op when the cursor is not positive. -/
theorem undo_of_nonpos (st : AppState) (h : ¬ 0 < st.history_index) : undo st = st := by
  unfold undo
  rw [if_neg h]

/-- C1: starting from the empty history, after N commits with N greater than the
capacity max_history = 50, the history holds exactly 50 entries with the cursor
at 49; within any single commit the capacity-trim branch (drop the oldest entry,
cursor unchanged) and the cursor-advance branch are mutually exclusive; undoing
49 = capacity - 1 times restores the oldest retained snapshot (the head of the
history) and leaves the cursor at 0, and a further undo is a no-op. -/
theorem history_capacity_bound (sts : List (List Object3D)) (hN : max_history < sts.length) :
    (commitAll sts initState).history.length = max_history ∧
    (commitAll sts initState).history_index = 49 ∧
    (∀ st : AppState,
      (max_history < (truncHist st ++ [copyList st.objects]).length →
        (save_state st).history = (truncHist st ++ [copyList st.objects]).tail ∧
        (save_state st).history_index = st.history_index) ∧
      ((truncHist st ++ [copyList st.objects]).length ≤ max_history →
        (save_state st).history = truncHist st ++ [copyList st.objects] ∧
        (save_state st).history_index = st.history_index + 1)) ∧
    (∀ s, (commitAll sts initState).history.head? = some s →
      (undo^[max_history - 1] (commitAll sts initState)).objects = s ∧
      (undo^[max_history - 1] (commitAll sts initState)).history_index = 0) ∧
    undo (undo^[max_history - 1] (commitAll sts initState)) =
      undo^[max_history - 1] (commitAll sts initState) := by
  have hmax : max_history = 50 := rfl
  have h0len : initState.history.length = 0 := rfl
  have hfin := commitAll_atEnd sts initState atEnd_init
  have hlen : (commitAll sts initState).history.length = max_history := by
    rw [hfin.2]
    omega
  have hidx : (commitAll sts initState).history_index = 49 := by
    have h1 := hfin.1.1
    rw [hlen] at h1
    rw [h1]
    omega
  have hiter := undo_iter (max_history - 1) 49 (commitAll sts initState)
    (by rw [hidx]; norm_num) (by omega) (by omega)
  refine ⟨hlen, hidx, ?_, ?_, ?_⟩
  · intro st
    constructor
    · intro hcap
      unfold save_state
      rw [if_pos (show (truncHist st ++ [copyList st.objects]).length > max_history from hcap)]
      exact ⟨rfl, rfl⟩
    · intro hcap
      unfold save_state
      rw [if_neg (show ¬ (truncHist st ++ [copyList st.objects]).length > max_history by omega)]
      exact ⟨rfl, rfl⟩
  · intro s hs
    have h0 : 0 < (commitAll sts initState).history.length := by omega
    have hget : (commitAll sts initState).history.getD 0 [] = s := by
      have h1 : (commitAll sts initState).history[0]? = some s := by
        rw [← List.head?_eq_getElem?]
        exact hs
      rw [List.getElem?_eq_getElem h0] at h1
      rw [List.getD_eq_getElem _ [] h0]
      exact Option.some.inj h1
    have hmem : s ∈ (commitAll sts initState).history := by
      rw [← hget, List.getD_eq_getElem _ [] h0]
      exact List.getElem_mem h0
    have hcopy : copyList s = s :=
      commitAll_copies sts initState (by simp [initState]) s hmem
    have hobj := hiter.2.2 (by omega)
    refine ⟨?_, ?_⟩
    · rw [hobj]
      rw [show 49 - (max_history - 1) = 0 from by omega, hget]
      exact hcopy
    · rw [hiter.2.1]
      omega
  · have hidx0 : (undo^[max_history - 1] (commitAll sts initState)).history_index = 0 := by
      rw [hiter.2.1]
      omega
    have hnlt : ¬ 0 < (undo^[max_history - 1] (commitAll sts initState)).history_index := by
      omega
    exact undo_of_nonpos _ hnlt

/-- C1 witness: 51 commits of empty scenes. -/
theorem history_capacity_bound_witness :
    (commitAll (List.replicate 51 []) initState).history.length = max_history ∧
    (commitAll (List.replicate 51 []) initState).history_index = 49 := by
  have h := history_capacity_bound (List.replicate 51 []) (by decide)
  exact ⟨h.1, h.2.1⟩

/-- C2: a commit issued when the cursor is not at the end of the history first
discards every entry after the cursor before appending (for any state
satisfying the reachable-state invariants cursor at least -1 and history within
capacity); in particular, starting from the empty state the sequence commit,
commit, undo, commit leaves redo a no-op: the whole state, hence also the live
object list and history_index, is unchanged by the redo call. -/
theorem commit_after_undo_truncation :
    (∀ st : AppState, -1 ≤ st.history_index → st.history.length ≤ max_history →
      st.history_index < (st.history.length : ℤ) - 1 →
        (save_state st).history =
          st.history.take (st.history_index + 1).toNat ++ [copyList st.objects] ∧
        (save_state st).history_index = st.history_index + 1) ∧
    (∀ a b c : List Object3D,
      redo (save_state { undo (save_state { save_state { initState with objects := a } with objects := b }) with objects := c }) =
        save_state { undo (save_state { save_state { initState with objects := a } with objects := b }) with objects := c }) := by
  constructor
  · intro st h1 h2 h3
    have hmax : max_history = 50 := rfl
    have htr : truncHist st = st.history.take (st.history_index + 1).toNat := by
      unfold truncHist
      rw [if_pos h3]
      unfold pySliceTo
      rw [if_pos (by omega : (0 : ℤ) ≤ st.history_index + 1)]
    have hl : (st.history.take (st.history_index + 1).toNat ++ [copyList st.objects]).length
        = min (st.history_index + 1).toNat st.history.length + 1 := by
      simp
    unfold save_state
    rw [htr]
    rw [if_neg (by omega : ¬ (st.history.take (st.history_index + 1).toNat ++ [copyList st.objects]).length > max_history)]
    exact ⟨rfl, rfl⟩
  · intro a b c
    have e1 : save_state { initState with objects := a }
        = { objects := a, history := [copyList a], history_index := 0 } := rfl
    rw [e1]
    try dsimp only
    have e2 : save_state { objects := b, history := [copyList a], history_index := 0 }
        = { objects := b, history := [copyList a, copyList b], history_index := 1 } := rfl
    rw [e2]
    try dsimp only
    have e3 : undo { objects := b, history := [copyList a, copyList b], history_index := 1 }
        = { objects := copyList (copyList a), history := [copyList a, copyList b], history_index := 0 } := rfl
    rw [e3]
    try dsimp only
    have e4 : save_state { objects := c, history := [copyList a, copyList b], history_index := 0 }
        = { objects := c, history := [copyList a, copyList c], history_index := 1 } := rfl
    rw [e4]
    rfl

/-- C2 witness: a two-entry history with the cursor on the first entry. -/
theorem commit_after_undo_truncation_witness :
    (save_state { objects := [], history := [[], []], history_index := 0 }).history = [[], []] ∧
    (save_state { objects := [], history := [[], []], history_index := 0 }).history_index = 1 := by
  have h := commit_after_undo_truncation.1
    { objects := [], history := [[], []], history_index := 0 } (by decide) (by decide) (by decide)
  exact ⟨h.1, h.2⟩

/-- An object that is marked selected, as a click on a placed object leaves it
(app.py lines 262-264). -/
def objSel : Object3D :=
  { name := "chair", position := ⟨0, 0, 0⟩, rotation := 0, obj_type := "chair"
    id := 1, scale := 1, selected := true }

/-- A reachable state with the cursor already at 0 and a selected live object:
one placed object was committed and then clicked. -/
def stNoop : AppState :=
  { objects := [objSel], history := [[copyObj objSel]], history_index := 0 }

/-- C10 counterexample: undo() on a state whose cursor is already at 0 is a
no-op, so the live list afterwards still contains an object with
selected = true; the claim that after any undo() every live object has
selected == false is false as stated. -/
theorem undo_noop_keeps_selection :
    ¬ (∀ o ∈ (undo stNoop).objects, o.selected = false) := by
  intro h
  have hu : undo stNoop = stNoop := undo_of_nonpos stNoop (by decide)
  have h2 := h objSel (by rw [hu]; exact List.mem_singleton.mpr rfl)
  exact absurd h2 (by decide)

/-- C10 (amended): the per-object copies made by save_state omit the selected
field, so every snapshot entry carries selected = false, and after any undo()
or redo() call that actually moves the cursor and restores a snapshot every
object in the live list has selected = false, even if an object was selected
when the restored snapshot was committed.  (A guarded no-op undo/redo call
leaves the live list, including selection flags, untouched.) -/
theorem restored_objects_unselected :
    (∀ st : AppState, ∀ o ∈ copyList st.objects, o.selected = false) ∧
    (∀ st : AppState, 0 < st.history_index → st.history_index < (st.history.length : ℤ) →
      ∀ o ∈ (undo st).objects, o.selected = false) ∧
    (∀ st : AppState, -1 ≤ st.history_index → st.history_index < (st.history.length : ℤ) - 1 →
      ∀ o ∈ (redo st).objects, o.selected = false) := by
  refine ⟨?_, ?_, ?_⟩
  · intro st o ho
    exact mem_copyList_selected _ o ho
  · intro st h1 h2 o ho
    have hg : pyGet st.history (st.history_index - 1)
        = some (st.history.getD (st.history_index - 1).toNat []) := by
      unfold pyGet
      rw [if_pos (by omega : (0 : ℤ) ≤ st.history_index - 1)]
      rw [List.getElem?_eq_getElem (by omega : (st.history_index - 1).toNat < st.history.length),
        List.getD_eq_getElem st.history [] (by omega : (st.history_index - 1).toNat < st.history.length)]
    unfold undo at ho
    rw [if_pos h1, hg] at ho
    exact mem_copyList_selected _ o ho
  · intro st h1 h2 o ho
    have hg : pyGet st.history (st.history_index + 1)
        = some (st.history.getD (st.history_index + 1).toNat []) := by
      unfold pyGet
      rw [if_pos (by omega : (0 : ℤ) ≤ st.history_index + 1)]
      rw [List.getElem?_eq_getElem (by omega : (st.history_index + 1).toNat < st.history.length),
        List.getD_eq_getElem st.history [] (by omega : (st.history_index + 1).toNat < st.history.length)]
    unfold redo at ho
    rw [if_pos h2, hg] at ho
    exact mem_copyList_selected _ o ho

/-- A state in which both undo and redo actually restore a snapshot. -/
def stRestore : AppState :=
  { objects := [objSel], history := [[], [], []], history_index := 1 }

/-- C10 witness: on a three-entry history with the cursor in the middle and a
selected live object, both undo and redo leave only unselected objects. -/
theorem restored_objects_unselected_witness :
    (∀ o ∈ (undo stRestore).objects, o.selected = false) ∧
    (∀ o ∈ (redo stRestore).objects, o.selected = false) :=
  ⟨restored_objects_unselected.2.1 stRestore (by decide) (by decide),
   restored_objects_unselected.2.2 stRestore (by decide) (by decide)⟩

/-- Python float modulo x % m (real semantics): x - m * floor (x / m). -/
noncomputable def pymod (x m : ℝ) : ℝ := x - m * ⌊x / m⌋

/-- One camera-drag pointer-move event (app.py lines 347-352): integer pixel
deltas dx, dy are applied with sensitivities 0.5 and 0.3; the horizontal angle
is wrapped modulo 360 and the vertical angle (sign inverted) is clamped to
[-85, 85]. -/
noncomputable def dragCameraMove (angles : ℝ × ℝ) (d : ℤ × ℤ) : ℝ × ℝ :=
  (pymod (angles.1 + (d.1 : ℝ) * 0.5) 360,
   max (-85) (min 85 (angles.2 - (d.2 : ℝ) * 0.3)))

/-- A whole sequence of camera-drag pointer-move events. -/
noncomputable def dragCameraMoves (angles : ℝ × ℝ) (ds : List (ℤ × ℤ)) : ℝ × ℝ :=
  ds.foldl dragCameraMove angles

/-- One wheel-scale step on the selected object (app.py lines 366-368):
scale += wheel_delta * 0.1, then clamp to [0.5, 2.0]. -/
noncomputable def wheelScaleStep (s : ℝ) (wy : ℤ) : ℝ := max 0.5 (min 2.0 (s + (wy : ℝ) * 0.1))

/-- A whole sequence of wheel-scale operations. -/
noncomputable def wheelScaleAll (s : ℝ) (ws : List ℤ) : ℝ := ws.foldl wheelScaleStep s

/-- One wheel-zoom step on the camera distance (app.py line 370):
distance := max(200, min(1500, distance - wheel_delta * 40)). -/
noncomputable def wheelZoomStep (d : ℝ) (wy : ℤ) : ℝ := max 200 (min 1500 (d - (wy : ℝ) * 40))

/-- A whole sequence of wheel-zoom operations. -/
noncomputable def wheelZoomAll (d : ℝ) (ws : List ℤ) : ℝ := ws.foldl wheelZoomStep d

/-- A Python modulo by a positive modulus lands in [0, m). -/
theorem pymod_mem (x m : ℝ) (hm : 0 < m) : 0 ≤ pymod x m ∧ pymod x m < m := by
  unfold pymod
  have hfl := Int.floor_le (x / m)
  have hfu := Int.lt_floor_add_one (x / m)
  have hx : m * (x / m) = x := by
    field_simp
  constructor
  · nlinarith
  · nlinarith

/-- C5: starting from any camera state with angle_h in [0, 360) and angle_v in
[-85, 85], after any sequence of camera-drag pointer-move events angle_h stays
within [0, 360) and angle_v stays within [-85, 85]. -/
theorem camera_angle_invariants :
    ∀ (ds : List (ℤ × ℤ)) (angles : ℝ × ℝ),
      0 ≤ angles.1 → angles.1 < 360 → -85 ≤ angles.2 → angles.2 ≤ 85 →
      0 ≤ (dragCameraMoves angles ds).1 ∧ (dragCameraMoves angles ds).1 < 360 ∧
      -85 ≤ (dragCameraMoves angles ds).2 ∧ (dragCameraMoves angles ds).2 ≤ 85 := by
  intro ds
  induction ds with
  | nil =>
    intro angles h1 h2 h3 h4
    exact ⟨h1, h2, h3, h4⟩
  | cons d rest ih =>
    intro angles h1 h2 h3 h4
    exact ih (dragCameraMove angles d)
      (pymod_mem (angles.1 + (d.1 : ℝ) * 0.5) 360 (by norm_num)).1
      (pymod_mem (angles.1 + (d.1 : ℝ) * 0.5) 360 (by norm_num)).2
      (le_max_left _ _)
      (max_le (by norm_num) (min_le_left _ _))

/-- C5 witness: the default angles (45, 35) and one large drag event. -/
theorem camera_angle_invariants_witness :
    0 ≤ (dragCameraMoves (45, 35) [(10, -600)]).1 ∧
    (dragCameraMoves (45, 35) [(10, -600)]).1 < 360 ∧
    -85 ≤ (dragCameraMoves (45, 35) [(10, -600)]).2 ∧
    (dragCameraMoves (45, 35) [(10, -600)]).2 ≤ 85 :=
  camera_angle_invariants [(10, -600)] (45, 35)
    (by norm_num) (by norm_num) (by norm_num) (by norm_num)

/-- The wheel-scale clamp keeps the scale inside [0.5, 2.0]. -/
theorem wheelScaleAll_mem (ws : List ℤ) :
    ∀ s : ℝ, 0.5 ≤ s → s ≤ 2.0 → 0.5 ≤ wheelScaleAll s ws ∧ wheelScaleAll s ws ≤ 2.0 := by
  induction ws with
  | nil => exact fun s h1 h2 => ⟨h1, h2⟩
  | cons w rest ih =>
    intro s h1 h2
    exact ih (wheelScaleStep s w) (le_max_left _ _) (max_le (by norm_num) (min_le_left _ _))

/-- The wheel-zoom clamp keeps the camera distance inside [200, 1500]. -/
theorem wheelZoomAll_mem (zs : List ℤ) :
    ∀ d : ℝ, 200 ≤ d → d ≤ 1500 → 200 ≤ wheelZoomAll d zs ∧ wheelZoomAll d zs ≤ 1500 := by
  induction zs with
  | nil => exact fun d h1 h2 => ⟨h1, h2⟩
  | cons w rest ih =>
    intro d h1 h2
    exact ih (wheelZoomStep d w) (le_max_left _ _) (max_le (by norm_num) (min_le_left _ _))

/-- C6: starting from an object scale in [0.5, 2.0] and a camera distance in
[200, 1500], any sequence of wheel-scale operations keeps the scale within
[0.5, 2.0] and any sequence of wheel-zoom operations keeps the distance within
[200, 1500]. -/
theorem wheel_clamp_invariants (s d : ℝ) (ws zs : List ℤ)
    (hs1 : 0.5 ≤ s) (hs2 : s ≤ 2.0) (hd1 : 200 ≤ d) (hd2 : d ≤ 1500) :
    (0.5 ≤ wheelScaleAll s ws ∧ wheelScaleAll s ws ≤ 2.0) ∧
    (200 ≤ wheelZoomAll d zs ∧ wheelZoomAll d zs ≤ 1500) :=
  ⟨wheelScaleAll_mem ws s hs1 hs2, wheelZoomAll_mem zs d hd1 hd2⟩

/-- C6 witness: default scale 1.0 and distance 700, with concrete wheel input. -/
theorem wheel_clamp_invariants_witness :
    (0.5 ≤ wheelScaleAll 1 [30] ∧ wheelScaleAll 1 [30] ≤ 2.0) ∧
    (200 ≤ wheelZoomAll 700 [-100] ∧ wheelZoomAll 700 [-100] ≤ 1500) :=
  wheel_clamp_invariants 1 700 [30] [-100] (by norm_num) (by norm_num) (by norm_num) (by norm_num)

/-- Python int() applied to a float: truncation toward zero. -/
noncomputable def pyTrunc (x : ℝ) : ℤ := if x < 0 then -⌊-x⌋ else ⌊x⌋

/-- math.radians: degrees to radians. -/
noncomputable def radians (x : ℝ) : ℝ := x * Real.pi / 180

/-- Orbit camera state with its constructor defaults (camera.py lines 4-10). -/
structure Camera where
  distance : ℝ
  angle_h : ℝ
  angle_v : ℝ
  target : Point3D
  fov : ℝ

/-- camera.py get_position (lines 12-18): spherical to Cartesian around the
target. -/
noncomputable def Camera.get_position (c : Camera) : Point3D :=
  ⟨c.target.x + c.distance * Real.cos (radians c.angle_v) * Real.cos (radians c.angle_h),
   c.target.y + c.distance * Real.sin (radians c.angle_v),
   c.target.z + c.distance * Real.cos (radians c.angle_v) * Real.sin (radians c.angle_h)⟩

/-- World up vector used by get_basis (camera.py line 25). -/
def up_world : Point3D := ⟨0, 1, 0⟩

/-- The unnormalized forward vector target - cam_pos (camera.py line 22). -/
noncomputable def Camera.forwardRaw (c : Camera) : Point3D :=
  ⟨c.target.x - c.get_position.x, c.target.y - c.get_position.y, c.target.z - c.get_position.z⟩

/-- Length of the unnormalized forward vector (camera.py line 23).  A zero
length (exactly when distance = 0) makes the unguarded normalization on line 24
raise ZeroDivisionError in Python; the error-aware get_basisE below models that
path, while in the total real model the division yields 0. -/
noncomputable def Camera.forwardLen (c : Camera) : ℝ :=
  Real.sqrt (c.forwardRaw.x ^ 2 + c.forwardRaw.y ^ 2 + c.forwardRaw.z ^ 2)

/-- The normalized forward basis vector f (camera.py line 24). -/
noncomputable def Camera.fwd (c : Camera) : Point3D :=
  ⟨c.forwardRaw.x / c.forwardLen, c.forwardRaw.y / c.forwardLen, c.forwardRaw.z / c.forwardLen⟩

/-- The raw right vector f x up_world (camera.py lines 26-28). -/
noncomputable def Camera.rightRaw (c : Camera) : Point3D :=
  ⟨c.fwd.y * up_world.z - c.fwd.z * up_world.y,
   c.fwd.z * up_world.x - c.fwd.x * up_world.z,
   c.fwd.x * up_world.y - c.fwd.y * up_world.x⟩

/-- Length of the raw right vector, with the Python idiom sqrt(...) or 1.0
substituting 1 when the length is zero (camera.py line 29). -/
noncomputable def Camera.rightLen (c : Camera) : ℝ :=
  if Real.sqrt (c.rightRaw.x ^ 2 + c.rightRaw.y ^ 2 + c.rightRaw.z ^ 2) = 0 then 1
  else Real.sqrt (c.rightRaw.x ^ 2 + c.rightRaw.y ^ 2 + c.rightRaw.z ^ 2)

/-- The normalized right basis vector (camera.py line 30). -/
noncomputable def Camera.rightv (c : Camera) : Point3D :=
  ⟨c.rightRaw.x / c.rightLen, c.rightRaw.y / c.rightLen, c.rightRaw.z / c.rightLen⟩

/-- The up basis vector right x f (camera.py lines 31-34), not re-normalized. -/
noncomputable def Camera.upv (c : Camera) : Point3D :=
  ⟨c.rightv.y * c.fwd.z - c.rightv.z * c.fwd.y,
   c.rightv.z * c.fwd.x - c.rightv.x * c.fwd.z,
   c.rightv.x * c.fwd.y - c.rightv.y * c.fwd.x⟩

/-- camera.py get_basis (lines 20-35): returns (right, up, forward, position). -/
noncomputable def Camera.get_basis (c : Camera) : Point3D × Point3D × Point3D × Point3D :=
  (c.rightv, c.upv, c.fwd, c.get_position)

/-- Camera-space coordinate of a world point along the right axis
(camera.py lines 39-42). -/
noncomputable def Camera.camX (c : Camera) (p : Point3D) : ℝ :=
  (p.x - c.get_position.x) * c.rightv.x + (p.y - c.get_position.y) * c.rightv.y +
    (p.z - c.get_position.z) * c.rightv.z

/-- Camera-space coordinate along the up axis (camera.py line 43). -/
noncomputable def Camera.camY (c : Camera) (p : Point3D) : ℝ :=
  (p.x - c.get_position.x) * c.upv.x + (p.y - c.get_position.y) * c.upv.y +
    (p.z - c.get_position.z) * c.upv.z

/-- Camera-space depth along the forward axis (camera.py line 44). -/
noncomputable def Camera.camZ (c : Camera) (p : Point3D) : ℝ :=
  (p.x - c.get_position.x) * c.fwd.x + (p.y - c.get_position.y) * c.fwd.y +
    (p.z - c.get_position.z) * c.fwd.z

/-- Aspect ratio screen_width / max(1, screen_height) (camera.py line 47). -/
noncomputable def aspect (w h : ℤ) : ℝ := (w : ℝ) / ((max 1 h : ℤ) : ℝ)

/-- tan(fov/2) (camera.py line 48). -/
noncomputable def Camera.tanHalf (c : Camera) : ℝ := Real.tan (radians c.fov / 2)

/-- camera.py project (lines 37-53) up to but not including the final int()
truncations: the real-valued screen coordinates.  A camera-space depth at or
below 1e-3 yields the screen centre (integer // division, exact in ℝ). -/
noncomputable def Camera.projectExact (c : Camera) (p : Point3D) (w h : ℤ) : ℝ × ℝ :=
  if c.camZ p ≤ 1e-3 then (((Int.fdiv w 2 : ℤ) : ℝ), ((Int.fdiv h 2 : ℤ) : ℝ))
  else
    ((((c.camX p / (c.camZ p * c.tanHalf)) / aspect w h) * 0.5 + 0.5) * (w : ℝ),
     (1.0 - ((c.camY p / (c.camZ p * c.tanHalf)) * 0.5 + 0.5)) * (h : ℝ))

/-- camera.py project (lines 37-53): the integer screen point; int() truncates
the real screen coordinates toward zero (and is exact on the degenerate-branch
integer values). -/
noncomputable def Camera.project (c : Camera) (p : Point3D) (w h : ℤ) : ℤ × ℤ :=
  (pyTrunc (c.projectExact p w h).1, pyTrunc (c.projectExact p w h).2)

/-- Normalized device x coordinate of a screen point (camera.py line 57). -/
noncomputable def ndcX (sx : ℝ) (w : ℤ) : ℝ := (sx / ((max 1 w : ℤ) : ℝ)) * 2 - 1

/-- Normalized device y coordinate of a screen point (camera.py line 58). -/
noncomputable def ndcY (sy : ℝ) (h : ℤ) : ℝ := 1 - (sy / ((max 1 h : ℤ) : ℝ)) * 2

/-- The unnormalized ray direction dx*right + dy*up + fwd (camera.py lines
61-65). -/
noncomputable def Camera.rayDirRaw (c : Camera) (sx sy : ℝ) (w h : ℤ) : Point3D :=
  ⟨ndcX sx w * aspect w h * c.tanHalf * c.rightv.x + ndcY sy h * c.tanHalf * c.upv.x + c.fwd.x,
   ndcX sx w * aspect w h * c.tanHalf * c.rightv.y + ndcY sy h * c.tanHalf * c.upv.y + c.fwd.y,
   ndcX sx w * aspect w h * c.tanHalf * c.rightv.z + ndcY sy h * c.tanHalf * c.upv.z + c.fwd.z⟩

/-- Length of the ray direction, with the Python sqrt(...) or 1.0 idiom
(camera.py line 66). -/
noncomputable def Camera.rayDirLen (c : Camera) (sx sy : ℝ) (w h : ℤ) : ℝ :=
  if Real.sqrt ((c.rayDirRaw sx sy w h).x ^ 2 + (c.rayDirRaw sx sy w h).y ^ 2 +
      (c.rayDirRaw sx sy w h).z ^ 2) = 0 then 1
  else Real.sqrt ((c.rayDirRaw sx sy w h).x ^ 2 + (c.rayDirRaw sx sy w h).y ^ 2 +
      (c.rayDirRaw sx sy w h).z ^ 2)

/-- camera.py screen_to_ray (lines 55-67): the world-space ray (origin,
normalized direction) through a screen point. -/
noncomputable def Camera.screen_to_ray (c : Camera) (sx sy : ℝ) (w h : ℤ) : Point3D × Point3D :=
  (c.get_position,
   ⟨(c.rayDirRaw sx sy w h).x / c.rayDirLen sx sy w h,
    (c.rayDirRaw sx sy w h).y / c.rayDirLen sx sy w h,
    (c.rayDirRaw sx sy w h).z / c.rayDirLen sx sy w h⟩)

/-- camera.py unproject (lines 69-77): intersect the screen ray with the
horizontal plane at height y.  A near-parallel ray (|direction.y| < 1e-5)
yields the origin's (x,z) at the plane height; a non-positive intersection
parameter t yields the point one unit along the ray; otherwise the true
intersection. -/
noncomputable def Camera.unproject (c : Camera) (screen_x screen_y : ℝ) (w h : ℤ) (y : ℝ) : Point3D :=
  if |(c.screen_to_ray screen_x screen_y w h).2.y| < 1e-5 then
    ⟨(c.screen_to_ray screen_x screen_y w h).1.x, y, (c.screen_to_ray screen_x screen_y w h).1.z⟩
  else if (y - (c.screen_to_ray screen_x screen_y w h).1.y) / (c.screen_to_ray screen_x screen_y w h).2.y ≤ 0 then
    ⟨(c.screen_to_ray screen_x screen_y w h).1.x + (c.screen_to_ray screen_x screen_y w h).2.x * 1.0, y,
     (c.screen_to_ray screen_x screen_y w h).1.z + (c.screen_to_ray screen_x screen_y w h).2.z * 1.0⟩
  else
    ⟨(c.screen_to_ray screen_x screen_y w h).1.x + (c.screen_to_ray screen_x screen_y w h).2.x *
        ((y - (c.screen_to_ray screen_x screen_y w h).1.y) / (c.screen_to_ray screen_x screen_y w h).2.y), y,
     (c.screen_to_ray screen_x screen_y w h).1.z + (c.screen_to_ray screen_x screen_y w h).2.z *
        ((y - (c.screen_to_ray screen_x screen_y w h).1.y) / (c.screen_to_ray screen_x screen_y w h).2.y)⟩

/-- camera.py get_basis (lines 20-35) with its error path made explicit: the
forward normalization divides f.x, f.y, f.z by fl with no guard (lines 23-24),
so a zero fl raises ZeroDivisionError, modeled as none; the right-vector
normalization that follows cannot raise because the rl division is protected by
the sqrt(...) or 1.0 idiom (line 29). -/
noncomputable def Camera.get_basisE (c : Camera) :
    Option (Point3D × Point3D × Point3D × Point3D) :=
  if c.forwardLen = 0 then none
  else some (c.rightv, c.upv, c.fwd, c.get_position)

/-- camera.py screen_to_ray (lines 55-67) with the error path of get_basis
propagated: once the basis is obtained, the only division is by dl, protected
by the sqrt(...) or 1.0 idiom (line 66), so no further error can arise. -/
noncomputable def Camera.screen_to_rayE (c : Camera) (sx sy : ℝ) (w h : ℤ) :
    Option (Point3D × Point3D) :=
  match c.get_basisE with
  | none => none
  | some _ => some (c.screen_to_ray sx sy w h)

/-- camera.py unproject (lines 69-77) with the error path of screen_to_ray
propagated: the only division of its own, by direction.y, is guarded by the
|direction.y| < 1e-5 branch. -/
noncomputable def Camera.unprojectE (c : Camera) (screen_x screen_y : ℝ) (w h : ℤ)
    (y : ℝ) : Option Point3D :=
  match c.screen_to_rayE screen_x screen_y w h with
  | none => none
  | some (origin, direction) =>
    if |direction.y| < 1e-5 then some ⟨origin.x, y, origin.z⟩
    else if (y - origin.y) / direction.y ≤ 0 then
      some ⟨origin.x + direction.x * 1.0, y, origin.z + direction.z * 1.0⟩
    else
      some ⟨origin.x + direction.x * ((y - origin.y) / direction.y), y,
        origin.z + direction.z * ((y - origin.y) / direction.y)⟩

/-- Branch characterization of unproject over the ray built by screen_to_ray:
a near-parallel ray (|direction.y| < 1e-5) returns the ray origin's (x, z) at
the plane height; a non-positive intersection parameter
t = (y - origin.y) / direction.y returns the point one unit along the ray
direction; otherwise the true intersection is returned. -/
theorem unproject_edge_policy (c : Camera) (sx sy : ℝ) (w h : ℤ) (yp : ℝ) :
    (|(c.screen_to_ray sx sy w h).2.y| < 1e-5 →
      c.unproject sx sy w h yp =
        ⟨(c.screen_to_ray sx sy w h).1.x, yp, (c.screen_to_ray sx sy w h).1.z⟩) ∧
    (1e-5 ≤ |(c.screen_to_ray sx sy w h).2.y| →
      (yp - (c.screen_to_ray sx sy w h).1.y) / (c.screen_to_ray sx sy w h).2.y ≤ 0 →
      c.unproject sx sy w h yp =
        ⟨(c.screen_to_ray sx sy w h).1.x + (c.screen_to_ray sx sy w h).2.x * 1.0, yp,
         (c.screen_to_ray sx sy w h).1.z + (c.screen_to_ray sx sy w h).2.z * 1.0⟩) ∧
    (1e-5 ≤ |(c.screen_to_ray sx sy w h).2.y| →
      0 < (yp - (c.screen_to_ray sx sy w h).1.y) / (c.screen_to_ray sx sy w h).2.y →
      c.unproject sx sy w h yp =
        ⟨(c.screen_to_ray sx sy w h).1.x + (c.screen_to_ray sx sy w h).2.x *
            ((yp - (c.screen_to_ray sx sy w h).1.y) / (c.screen_to_ray sx sy w h).2.y), yp,
         (c.screen_to_ray sx sy w h).1.z + (c.screen_to_ray sx sy w h).2.z *
            ((yp - (c.screen_to_ray sx sy w h).1.y) / (c.screen_to_ray sx sy w h).2.y)⟩) := by
  refine ⟨?_, ?_, ?_⟩
  · intro h1
    unfold Camera.unproject
    rw [if_pos h1]
  · intro h1 h2
    unfold Camera.unproject
    rw [if_neg (not_lt.mpr h1), if_pos h2]
  · intro h1 h2
    unfold Camera.unproject
    rw [if_neg (not_lt.mpr h1), if_neg (not_le.mpr h2)]

/-- A concrete camera looking horizontally along the negative x axis:
distance 1, both angles 0, target at the origin, fov 90. -/
noncomputable def camFlat : Camera :=
  { distance := 1, angle_h := 0, angle_v := 0, target := ⟨0, 0, 0⟩, fov := 90 }

theorem camFlat_position : camFlat.get_position = ⟨1, 0, 0⟩ := by
  unfold Camera.get_position camFlat radians
  ext <;> norm_num

theorem camFlat_fwd : camFlat.fwd = ⟨-1, 0, 0⟩ := by
  unfold Camera.fwd Camera.forwardLen Camera.forwardRaw
  rw [camFlat_position]
  have ht : camFlat.target = (⟨0, 0, 0⟩ : Point3D) := rfl
  rw [ht]
  ext <;> norm_num [Real.sqrt_one]

theorem camFlat_rightRaw : camFlat.rightRaw = ⟨0, 0, -1⟩ := by
  unfold Camera.rightRaw up_world
  rw [camFlat_fwd]
  ext <;> norm_num

theorem camFlat_rightLen : camFlat.rightLen = 1 := by
  unfold Camera.rightLen
  rw [camFlat_rightRaw]
  norm_num [Real.sqrt_one]

theorem camFlat_rightv : camFlat.rightv = ⟨0, 0, -1⟩ := by
  unfold Camera.rightv
  rw [camFlat_rightRaw, camFlat_rightLen]
  ext <;> norm_num

theorem camFlat_upv : camFlat.upv = ⟨0, 1, 0⟩ := by
  unfold Camera.upv
  rw [camFlat_rightv, camFlat_fwd]
  ext <;> norm_num

theorem camFlat_ray : camFlat.screen_to_ray 1 1 2 2 = (⟨1, 0, 0⟩, ⟨-1, 0, 0⟩) := by
  unfold Camera.screen_to_ray Camera.rayDirLen Camera.rayDirRaw ndcX ndcY
  rw [camFlat_position, camFlat_rightv, camFlat_upv, camFlat_fwd]
  norm_num [Real.sqrt_one, Prod.ext_iff]

/-- The unnormalized forward vector in spherical coordinates. -/
theorem forwardRaw_eq (c : Camera) :
    c.forwardRaw = ⟨-(c.distance * Real.cos (radians c.angle_v) * Real.cos (radians c.angle_h)),
                    -(c.distance * Real.sin (radians c.angle_v)),
                    -(c.distance * Real.cos (radians c.angle_v) * Real.sin (radians c.angle_h))⟩ := by
  unfold Camera.forwardRaw Camera.get_position
  ext <;> dsimp <;> ring

/-- The length of the forward vector is exactly the orbit distance. -/
theorem forwardLen_eq (c : Camera) (hd : 0 ≤ c.distance) : c.forwardLen = c.distance := by
  unfold Camera.forwardLen
  rw [forwardRaw_eq]
  dsimp
  have h1 := Real.sin_sq_add_cos_sq (radians c.angle_h)
  have h2 := Real.sin_sq_add_cos_sq (radians c.angle_v)
  have hsum : (-(c.distance * Real.cos (radians c.angle_v) * Real.cos (radians c.angle_h))) ^ 2 +
      (-(c.distance * Real.sin (radians c.angle_v))) ^ 2 +
      (-(c.distance * Real.cos (radians c.angle_v) * Real.sin (radians c.angle_h))) ^ 2
      = c.distance ^ 2 := by
    linear_combination (c.distance ^ 2 * (Real.cos (radians c.angle_v)) ^ 2) * h1 +
      c.distance ^ 2 * h2
  rw [hsum, Real.sqrt_sq hd]

/-- In general the length of the forward vector is the absolute orbit
distance, so it vanishes exactly when the distance is 0. -/
theorem forwardLen_eq_abs (c : Camera) : c.forwardLen = |c.distance| := by
  unfold Camera.forwardLen
  rw [forwardRaw_eq]
  dsimp
  have h1 := Real.sin_sq_add_cos_sq (radians c.angle_h)
  have h2 := Real.sin_sq_add_cos_sq (radians c.angle_v)
  have hsum : (-(c.distance * Real.cos (radians c.angle_v) * Real.cos (radians c.angle_h))) ^ 2 +
      (-(c.distance * Real.sin (radians c.angle_v))) ^ 2 +
      (-(c.distance * Real.cos (radians c.angle_v) * Real.sin (radians c.angle_h))) ^ 2
      = c.distance ^ 2 := by
    linear_combination (c.distance ^ 2 * (Real.cos (radians c.angle_v)) ^ 2) * h1 +
      c.distance ^ 2 * h2
  rw [hsum, Real.sqrt_sq_eq_abs]

/-- A camera state with orbit distance 0: load_layout installs the distance
read from the layout file without clamping (app.py line 780), so this state is
reachable. -/
noncomputable def camZeroDist : Camera :=
  { distance := 0, angle_h := 45, angle_v := 35, target := ⟨0, 0, 0⟩, fov := 60 }

/-- C3 counterexample: at distance 0 the forward vector is zero, so fl = 0 and
the unguarded normalization f.x / fl in get_basis (camera.py line 24) raises
ZeroDivisionError.  unproject therefore does raise an error for this camera
state: the error-aware embedding returns none. -/
theorem unproject_zero_distance_raises :
    camZeroDist.unprojectE 50 50 100 100 0 = none := by
  have hlen : camZeroDist.forwardLen = 0 := by
    rw [forwardLen_eq_abs]
    norm_num [camZeroDist]
  unfold Camera.unprojectE Camera.screen_to_rayE Camera.get_basisE
  rw [if_pos hlen]

/-- C3 (amended): for every camera state with nonzero orbit distance, every
screen point and every plane height, unproject raises no error — the
error-aware embedding returns some point, the value of the total model — and
the documented edge policies hold: a near-parallel ray (|direction.y| < 1e-5)
returns the ray origin's (x, z) at the plane height instead of dividing by
near-zero, and a non-positive intersection parameter
t = (y - origin.y) / direction.y returns the point one unit along the ray
direction instead of the true negative-t intersection; otherwise the true
plane intersection is returned.  (At distance = 0 the unguarded normalization
in get_basis raises ZeroDivisionError; see the counterexample.) -/
theorem unproject_error_and_edge_policy (c : Camera) (sx sy : ℝ) (w h : ℤ) (yp : ℝ)
    (hd : c.distance ≠ 0) :
    c.unprojectE sx sy w h yp = some (c.unproject sx sy w h yp) ∧
    (|(c.screen_to_ray sx sy w h).2.y| < 1e-5 →
      c.unproject sx sy w h yp =
        ⟨(c.screen_to_ray sx sy w h).1.x, yp, (c.screen_to_ray sx sy w h).1.z⟩) ∧
    (1e-5 ≤ |(c.screen_to_ray sx sy w h).2.y| →
      (yp - (c.screen_to_ray sx sy w h).1.y) / (c.screen_to_ray sx sy w h).2.y ≤ 0 →
      c.unproject sx sy w h yp =
        ⟨(c.screen_to_ray sx sy w h).1.x + (c.screen_to_ray sx sy w h).2.x * 1.0, yp,
         (c.screen_to_ray sx sy w h).1.z + (c.screen_to_ray sx sy w h).2.z * 1.0⟩) ∧
    (1e-5 ≤ |(c.screen_to_ray sx sy w h).2.y| →
      0 < (yp - (c.screen_to_ray sx sy w h).1.y) / (c.screen_to_ray sx sy w h).2.y →
      c.unproject sx sy w h yp =
        ⟨(c.screen_to_ray sx sy w h).1.x + (c.screen_to_ray sx sy w h).2.x *
            ((yp - (c.screen_to_ray sx sy w h).1.y) / (c.screen_to_ray sx sy w h).2.y), yp,
         (c.screen_to_ray sx sy w h).1.z + (c.screen_to_ray sx sy w h).2.z *
            ((yp - (c.screen_to_ray sx sy w h).1.y) / (c.screen_to_ray sx sy w h).2.y)⟩) := by
  have hlen : c.forwardLen ≠ 0 := by
    rw [forwardLen_eq_abs]
    exact abs_ne_zero.mpr hd
  have hE : c.screen_to_rayE sx sy w h = some (c.screen_to_ray sx sy w h) := by
    unfold Camera.screen_to_rayE Camera.get_basisE
    rw [if_neg hlen]
  have hpol := unproject_edge_policy c sx sy w h yp
  refine ⟨?_, hpol.1, hpol.2.1, hpol.2.2⟩
  unfold Camera.unprojectE Camera.unproject
  rw [hE]
  rcases hsr : c.screen_to_ray sx sy w h with ⟨o, d⟩
  dsimp only
  rcases lt_or_le |d.y| 1e-5 with h1 | h1
  · rw [if_pos h1, if_pos h1]
  · rw [if_neg (not_lt.mpr h1), if_neg (not_lt.mpr h1)]
    rcases le_or_lt ((yp - o.y) / d.y) 0 with h2 | h2
    · rw [if_pos h2, if_pos h2]
    · rw [if_neg (not_le.mpr h2), if_neg (not_le.mpr h2)]

/-- C3 witness: camFlat has nonzero distance, so its error-aware unproject
returns some point; its centre pixel gives a horizontal ray (direction.y = 0,
within the 1e-5 guard), so the point is the origin's (x, z) at the requested
plane height. -/
theorem unproject_error_and_edge_policy_witness :
    camFlat.unprojectE 1 1 2 2 5 = some (camFlat.unproject 1 1 2 2 5) ∧
    camFlat.unproject 1 1 2 2 5 = ⟨1, 5, 0⟩ := by
  have h := unproject_error_and_edge_policy camFlat 1 1 2 2 5
    (by norm_num [camFlat] : camFlat.distance ≠ 0)
  refine ⟨h.1, ?_⟩
  have h2 := h.2.1
  rw [camFlat_ray] at h2
  exact h2 (by norm_num)

/-- The normalized forward vector in spherical coordinates. -/
theorem fwd_eq (c : Camera) (hd : 0 < c.distance) :
    c.fwd = ⟨-(Real.cos (radians c.angle_v) * Real.cos (radians c.angle_h)),
             -(Real.sin (radians c.angle_v)),
             -(Real.cos (radians c.angle_v) * Real.sin (radians c.angle_h))⟩ := by
  unfold Camera.fwd
  rw [forwardRaw_eq, forwardLen_eq c hd.le]
  have hne : c.distance ≠ 0 := hd.ne'
  ext <;> dsimp
  all_goals field_simp
  all_goals ring

/-- The forward vector is unit whenever the distance is positive. -/
theorem fwd_unit (c : Camera) (hd : 0 < c.distance) :
    c.fwd.x ^ 2 + c.fwd.y ^ 2 + c.fwd.z ^ 2 = 1 := by
  rw [fwd_eq c hd]
  dsimp
  have h1 := Real.sin_sq_add_cos_sq (radians c.angle_h)
  have h2 := Real.sin_sq_add_cos_sq (radians c.angle_v)
  linear_combination (Real.cos (radians c.angle_v)) ^ 2 * h1 + h2

/-- Horizontal norm of the forward vector: the squared cosine of angle_v. -/
theorem fwd_horiz (c : Camera) (hd : 0 < c.distance) :
    c.fwd.x ^ 2 + c.fwd.z ^ 2 = (Real.cos (radians c.angle_v)) ^ 2 := by
  rw [fwd_eq c hd]
  dsimp
  have h1 := Real.sin_sq_add_cos_sq (radians c.angle_h)
  linear_combination (Real.cos (radians c.angle_v)) ^ 2 * h1

/-- The raw right vector is the cross product with the world up axis. -/
theorem rightRaw_eq (c : Camera) : c.rightRaw = ⟨-c.fwd.z, 0, c.fwd.x⟩ := by
  unfold Camera.rightRaw up_world
  ext <;> dsimp <;> ring

/-- With a non-degenerate forward direction, the right-vector length is the
horizontal norm of the forward vector. -/
theorem rightLen_eq (c : Camera) (hs : 0 < c.fwd.x ^ 2 + c.fwd.z ^ 2) :
    c.rightLen = Real.sqrt (c.fwd.x ^ 2 + c.fwd.z ^ 2) := by
  unfold Camera.rightLen
  rw [rightRaw_eq]
  dsimp
  rw [show (-c.fwd.z) ^ 2 + (0 : ℝ) ^ 2 + c.fwd.x ^ 2 = c.fwd.x ^ 2 + c.fwd.z ^ 2 from by ring]
  rw [if_neg (Real.sqrt_ne_zero'.mpr hs)]

/-- Explicit form of the normalized right vector. -/
theorem rightv_eq (c : Camera) (hs : 0 < c.fwd.x ^ 2 + c.fwd.z ^ 2) :
    c.rightv = ⟨-c.fwd.z / Real.sqrt (c.fwd.x ^ 2 + c.fwd.z ^ 2), 0,
                c.fwd.x / Real.sqrt (c.fwd.x ^ 2 + c.fwd.z ^ 2)⟩ := by
  unfold Camera.rightv
  rw [rightRaw_eq, rightLen_eq c hs]
  ext <;> dsimp <;> norm_num

/-- Explicit form of the up vector. -/
theorem upv_eq (c : Camera) (hs : 0 < c.fwd.x ^ 2 + c.fwd.z ^ 2) :
    c.upv = ⟨-(c.fwd.x * c.fwd.y) / Real.sqrt (c.fwd.x ^ 2 + c.fwd.z ^ 2),
             (c.fwd.x ^ 2 + c.fwd.z ^ 2) / Real.sqrt (c.fwd.x ^ 2 + c.fwd.z ^ 2),
             -(c.fwd.y * c.fwd.z) / Real.sqrt (c.fwd.x ^ 2 + c.fwd.z ^ 2)⟩ := by
  unfold Camera.upv
  rw [rightv_eq c hs]
  ext <;> dsimp <;> ring

/-- Orthonormality of the computed basis, given a unit forward vector with a
non-degenerate horizontal component. -/
theorem basis_props (c : Camera) (hunit : c.fwd.x ^ 2 + c.fwd.y ^ 2 + c.fwd.z ^ 2 = 1)
    (hs : 0 < c.fwd.x ^ 2 + c.fwd.z ^ 2) :
    (c.rightv.x ^ 2 + c.rightv.y ^ 2 + c.rightv.z ^ 2 = 1) ∧
    (c.upv.x ^ 2 + c.upv.y ^ 2 + c.upv.z ^ 2 = 1) ∧
    (c.rightv.x * c.upv.x + c.rightv.y * c.upv.y + c.rightv.z * c.upv.z = 0) ∧
    (c.rightv.x * c.fwd.x + c.rightv.y * c.fwd.y + c.rightv.z * c.fwd.z = 0) ∧
    (c.upv.x * c.fwd.x + c.upv.y * c.fwd.y + c.upv.z * c.fwd.z = 0) := by
  have hs2 : (Real.sqrt (c.fwd.x ^ 2 + c.fwd.z ^ 2)) ^ 2 = c.fwd.x ^ 2 + c.fwd.z ^ 2 :=
    Real.sq_sqrt hs.le
  have hsne : Real.sqrt (c.fwd.x ^ 2 + c.fwd.z ^ 2) ≠ 0 := (Real.sqrt_pos.mpr hs).ne'
  rw [rightv_eq c hs, upv_eq c hs]
  dsimp
  set a := c.fwd.x
  set b := c.fwd.y
  set c3 := c.fwd.z
  set s := Real.sqrt (a ^ 2 + c3 ^ 2)
  refine ⟨?_, ?_, ?_, ?_, ?_⟩
  · field_simp
    linarith [hs2]
  · field_simp
    linear_combination (a ^ 2 + c3 ^ 2) * hunit - hs2
  · field_simp
    ring
  · field_simp
    ring
  · field_simp
    ring

theorem basis_expand (c : Camera) (hunit : c.fwd.x ^ 2 + c.fwd.y ^ 2 + c.fwd.z ^ 2 = 1)
    (hs : 0 < c.fwd.x ^ 2 + c.fwd.z ^ 2) (vx vy vz : ℝ) :
    ((vx * c.rightv.x + vy * c.rightv.y + vz * c.rightv.z) * c.rightv.x +
     (vx * c.upv.x + vy * c.upv.y + vz * c.upv.z) * c.upv.x +
     (vx * c.fwd.x + vy * c.fwd.y + vz * c.fwd.z) * c.fwd.x = vx) ∧
    ((vx * c.rightv.x + vy * c.rightv.y + vz * c.rightv.z) * c.rightv.y +
     (vx * c.upv.x + vy * c.upv.y + vz * c.upv.z) * c.upv.y +
     (vx * c.fwd.x + vy * c.fwd.y + vz * c.fwd.z) * c.fwd.y = vy) ∧
    ((vx * c.rightv.x + vy * c.rightv.y + vz * c.rightv.z) * c.rightv.z +
     (vx * c.upv.x + vy * c.upv.y + vz * c.upv.z) * c.upv.z +
     (vx * c.fwd.x + vy * c.fwd.y + vz * c.fwd.z) * c.fwd.z = vz) := by
  have hs2 : (Real.sqrt (c.fwd.x ^ 2 + c.fwd.z ^ 2)) ^ 2 = c.fwd.x ^ 2 + c.fwd.z ^ 2 :=
    Real.sq_sqrt hs.le
  have hsne : Real.sqrt (c.fwd.x ^ 2 + c.fwd.z ^ 2) ≠ 0 := (Real.sqrt_pos.mpr hs).ne'
  have hs2ne : (Real.sqrt (c.fwd.x ^ 2 + c.fwd.z ^ 2)) ^ 2 ≠ 0 := pow_ne_zero 2 hsne
  rw [rightv_eq c hs, upv_eq c hs]
  dsimp
  set a := c.fwd.x
  set b := c.fwd.y
  set c3 := c.fwd.z
  set s := Real.sqrt (a ^ 2 + c3 ^ 2)
  refine ⟨?_, ?_, ?_⟩
  · have expand : (vx * (-c3 / s) + vy * 0 + vz * (a / s)) * (-c3 / s) +
        (vx * (-(a * b) / s) + vy * ((a ^ 2 + c3 ^ 2) / s) + vz * (-(b * c3) / s)) * (-(a * b) / s) +
        (vx * a + vy * b + vz * c3) * a =
        ((vx * (-c3) + vz * a) * (-c3) +
         (vx * (-(a * b)) + vy * (a ^ 2 + c3 ^ 2) + vz * (-(b * c3))) * (-(a * b)) +
         s ^ 2 * ((vx * a + vy * b + vz * c3) * a)) / s ^ 2 := by
      field_simp
      ring
    rw [expand]
    have hnum : (vx * (-c3) + vz * a) * (-c3) +
        (vx * (-(a * b)) + vy * (a ^ 2 + c3 ^ 2) + vz * (-(b * c3))) * (-(a * b)) +
        s ^ 2 * ((vx * a + vy * b + vz * c3) * a) = s ^ 2 * vx := by
      linear_combination (vx * a ^ 2 + vy * a * b + vz * a * c3 - vx) * hs2 +
        (vz * a * c3 + vx * a ^ 2) * hunit
    rw [hnum]
    exact mul_div_cancel_left₀ vx hs2ne
  · have expand : (vx * (-c3 / s) + vy * 0 + vz * (a / s)) * 0 +
        (vx * (-(a * b) / s) + vy * ((a ^ 2 + c3 ^ 2) / s) + vz * (-(b * c3) / s)) * ((a ^ 2 + c3 ^ 2) / s) +
        (vx * a + vy * b + vz * c3) * b =
        ((vx * (-(a * b)) + vy * (a ^ 2 + c3 ^ 2) + vz * (-(b * c3))) * (a ^ 2 + c3 ^ 2) +
         s ^ 2 * ((vx * a + vy * b + vz * c3) * b)) / s ^ 2 := by
      field_simp
      ring
    rw [expand]
    have hnum : (vx * (-(a * b)) + vy * (a ^ 2 + c3 ^ 2) + vz * (-(b * c3))) * (a ^ 2 + c3 ^ 2) +
        s ^ 2 * ((vx * a + vy * b + vz * c3) * b) = s ^ 2 * vy := by
      linear_combination ((vx * a + vy * b + vz * c3) * b - vy) * hs2 +
        vy * (a ^ 2 + c3 ^ 2) * hunit
    rw [hnum]
    exact mul_div_cancel_left₀ vy hs2ne
  · have expand : (vx * (-c3 / s) + vy * 0 + vz * (a / s)) * (a / s) +
        (vx * (-(a * b) / s) + vy * ((a ^ 2 + c3 ^ 2) / s) + vz * (-(b * c3) / s)) * (-(b * c3) / s) +
        (vx * a + vy * b + vz * c3) * c3 =
        ((vx * (-c3) + vz * a) * a +
         (vx * (-(a * b)) + vy * (a ^ 2 + c3 ^ 2) + vz * (-(b * c3))) * (-(b * c3)) +
         s ^ 2 * ((vx * a + vy * b + vz * c3) * c3)) / s ^ 2 := by
      field_simp
      ring
    rw [expand]
    have hnum : (vx * (-c3) + vz * a) * a +
        (vx * (-(a * b)) + vy * (a ^ 2 + c3 ^ 2) + vz * (-(b * c3))) * (-(b * c3)) +
        s ^ 2 * ((vx * a + vy * b + vz * c3) * c3) = s ^ 2 * vz := by
      linear_combination ((vx * a + vy * b + vz * c3) * c3 - vz) * hs2 +
        (vx * a * c3 + vz * c3 ^ 2) * hunit
    rw [hnum]
    exact mul_div_cancel_left₀ vz hs2ne

/-- For angle_v in the clamped range, the cosine of the vertical angle is
positive (85 degrees is strictly inside the quarter turn). -/
theorem cos_angle_v_pos (c : Camera) (hv1 : -85 ≤ c.angle_v) (hv2 : c.angle_v ≤ 85) :
    0 < Real.cos (radians c.angle_v) := by
  have hpi := Real.pi_pos
  apply Real.cos_pos_of_mem_Ioo
  constructor
  · show -(Real.pi / 2) < radians c.angle_v
    unfold radians
    nlinarith [mul_pos hpi (show (0 : ℝ) < c.angle_v + 90 by linarith)]
  · show radians c.angle_v < Real.pi / 2
    unfold radians
    nlinarith [mul_pos hpi (show (0 : ℝ) < 90 - c.angle_v by linarith)]

/-- C8: for every camera state with angle_v in the valid clamped range
[-85, 85] and positive distance, get_basis() returns three pairwise orthogonal
unit vectors (right, up, forward), and forward points from the camera position
toward the target: target - position = distance * forward with distance > 0. -/
theorem get_basis_orthonormal (c : Camera) (hv1 : -85 ≤ c.angle_v) (hv2 : c.angle_v ≤ 85)
    (hd : 0 < c.distance) :
    ((c.get_basis).1.x ^ 2 + (c.get_basis).1.y ^ 2 + (c.get_basis).1.z ^ 2 = 1) ∧
    ((c.get_basis).2.1.x ^ 2 + (c.get_basis).2.1.y ^ 2 + (c.get_basis).2.1.z ^ 2 = 1) ∧
    ((c.get_basis).2.2.1.x ^ 2 + (c.get_basis).2.2.1.y ^ 2 + (c.get_basis).2.2.1.z ^ 2 = 1) ∧
    ((c.get_basis).1.x * (c.get_basis).2.1.x + (c.get_basis).1.y * (c.get_basis).2.1.y +
      (c.get_basis).1.z * (c.get_basis).2.1.z = 0) ∧
    ((c.get_basis).1.x * (c.get_basis).2.2.1.x + (c.get_basis).1.y * (c.get_basis).2.2.1.y +
      (c.get_basis).1.z * (c.get_basis).2.2.1.z = 0) ∧
    ((c.get_basis).2.1.x * (c.get_basis).2.2.1.x + (c.get_basis).2.1.y * (c.get_basis).2.2.1.y +
      (c.get_basis).2.1.z * (c.get_basis).2.2.1.z = 0) ∧
    (c.target.x - (c.get_basis).2.2.2.x = c.distance * (c.get_basis).2.2.1.x) ∧
    (c.target.y - (c.get_basis).2.2.2.y = c.distance * (c.get_basis).2.2.1.y) ∧
    (c.target.z - (c.get_basis).2.2.2.z = c.distance * (c.get_basis).2.2.1.z) := by
  have hcos := cos_angle_v_pos c hv1 hv2
  have hunit := fwd_unit c hd
  have hsq : 0 < c.fwd.x ^ 2 + c.fwd.z ^ 2 := by
    rw [fwd_horiz c hd]
    exact pow_pos hcos 2
  have hb := basis_props c hunit hsq
  refine ⟨hb.1, hb.2.1, hunit, hb.2.2.1, hb.2.2.2.1, hb.2.2.2.2, ?_, ?_, ?_⟩
  · show c.target.x - c.get_position.x = c.distance * c.fwd.x
    unfold Camera.fwd Camera.forwardRaw
    rw [forwardLen_eq c hd.le]
    dsimp
    field_simp
  · show c.target.y - c.get_position.y = c.distance * c.fwd.y
    unfold Camera.fwd Camera.forwardRaw
    rw [forwardLen_eq c hd.le]
    dsimp
    field_simp
  · show c.target.z - c.get_position.z = c.distance * c.fwd.z
    unfold Camera.fwd Camera.forwardRaw
    rw [forwardLen_eq c hd.le]
    dsimp
    field_simp

/-- The default camera of the application: distance 700, angles (45, 35),
target at the origin, fov 60. -/
noncomputable def camDefault : Camera :=
  { distance := 700, angle_h := 45, angle_v := 35, target := ⟨0, 0, 0⟩, fov := 60 }

/-- C8 witness: the default camera satisfies the hypotheses; its forward vector
is unit. -/
theorem get_basis_orthonormal_witness :
    (camDefault.get_basis).2.2.1.x ^ 2 + (camDefault.get_basis).2.2.1.y ^ 2 +
      (camDefault.get_basis).2.2.1.z ^ 2 = 1 :=
  (get_basis_orthonormal camDefault (by norm_num [camDefault]) (by norm_num [camDefault])
    (by norm_num [camDefault])).2.2.1

/-- A camera looking straight down: distance 1, angle_v = 90, target at the
origin, fov 90.  In the exact real model its raw right vector is the zero
vector, so the rl = 0 branch of get_basis substitutes 1 for the length. -/
noncomputable def camTop : Camera :=
  { distance := 1, angle_h := 0, angle_v := 90, target := ⟨0, 0, 0⟩, fov := 90 }

theorem camTop_position : camTop.get_position = ⟨0, 1, 0⟩ := by
  unfold Camera.get_position
  rw [show camTop.angle_v = 90 from rfl, show camTop.angle_h = 0 from rfl,
    show radians (90 : ℝ) = Real.pi / 2 from by unfold radians; ring,
    show radians (0 : ℝ) = 0 from by unfold radians; ring,
    Real.cos_pi_div_two, Real.sin_pi_div_two, Real.cos_zero, Real.sin_zero]
  ext <;> norm_num [camTop]

theorem camTop_fwd : camTop.fwd = ⟨0, -1, 0⟩ := by
  unfold Camera.fwd Camera.forwardLen Camera.forwardRaw
  rw [camTop_position]
  have ht : camTop.target = (⟨0, 0, 0⟩ : Point3D) := rfl
  rw [ht]
  ext <;> norm_num [Real.sqrt_one]

theorem camTop_rightRaw : camTop.rightRaw = ⟨0, 0, 0⟩ := by
  rw [rightRaw_eq, camTop_fwd]
  ext <;> norm_num

theorem camTop_rightLen : camTop.rightLen = 1 := by
  unfold Camera.rightLen
  rw [camTop_rightRaw]
  norm_num

theorem camTop_rightv : camTop.rightv = ⟨0, 0, 0⟩ := by
  unfold Camera.rightv
  rw [camTop_rightRaw, camTop_rightLen]
  ext <;> norm_num

theorem camTop_upv : camTop.upv = ⟨0, 0, 0⟩ := by
  unfold Camera.upv
  rw [camTop_rightv, camTop_fwd]
  ext <;> norm_num

/-- Recovery of one ray-direction component: undoing the perspective divide
against one basis axis. -/
theorem ray_component (A B Z T As rx ux fx vx : ℝ) (hZ : Z ≠ 0) (hT : T ≠ 0) (hAs : As ≠ 0)
    (hrel : A * rx + B * ux + Z * fx = vx) :
    A / (Z * T) / As * As * T * rx + B / (Z * T) * T * ux + fx = vx / Z := by
  field_simp
  linear_combination As * T ^ 2 * Z ^ 2 * hrel

/-- Length of a vector scaled by a positive factor. -/
theorem sqrt_scaled (vx vy vz Z : ℝ) (hZ : 0 < Z) :
    Real.sqrt ((vx / Z) ^ 2 + (vy / Z) ^ 2 + (vz / Z) ^ 2)
      = Real.sqrt (vx ^ 2 + vy ^ 2 + vz ^ 2) / Z := by
  rw [show (vx / Z) ^ 2 + (vy / Z) ^ 2 + (vz / Z) ^ 2
      = (vx ^ 2 + vy ^ 2 + vz ^ 2) / Z ^ 2 from by ring]
  rw [Real.sqrt_div (by positivity) (Z ^ 2), Real.sqrt_sq hZ.le]

/-- A nonpositive sum of three squares forces every component to vanish. -/
theorem sum_sq_nonpos {x y z : ℝ} (hc : x ^ 2 + y ^ 2 + z ^ 2 ≤ 0) :
    x = 0 ∧ y = 0 ∧ z = 0 := by
  have hx := sq_nonneg x
  have hy := sq_nonneg y
  have hz := sq_nonneg z
  refine ⟨?_, ?_, ?_⟩
  · exact (pow_eq_zero_iff (by norm_num : (2 : ℕ) ≠ 0)).mp (le_antisymm (by linarith) hx)
  · exact (pow_eq_zero_iff (by norm_num : (2 : ℕ) ≠ 0)).mp (le_antisymm (by linarith) hy)
  · exact (pow_eq_zero_iff (by norm_num : (2 : ℕ) ≠ 0)).mp (le_antisymm (by linarith) hz)

/-- C4 (amended): for every world point with y = 0 that is in front of the
camera (camera-space depth above the 1e-3 threshold), with a non-degenerate
camera (positive distance, forward direction not vertical, non-zero
tan(fov/2)), screen dimensions at least 1, and a non-degenerate ray at the
projected point (|direction.y| at least 1e-5), unprojecting at the EXACT
real-valued screen coordinates produced by the projection (before the final
int() truncation) with plane y = 0 recovers the original world (x, z)
exactly.  (With the truncated integer screen point of project, recovery holds
only up to pixel quantization; see the counterexample.) -/
theorem projectExact_unproject_roundtrip (c : Camera) (p : Point3D) (w h : ℤ)
    (hy : p.y = 0) (hd : 0 < c.distance) (hv : Real.cos (radians c.angle_v) ≠ 0)
    (hth : c.tanHalf ≠ 0) (hw : 1 ≤ w) (hh : 1 ≤ h) (hz : 1e-3 < c.camZ p)
    (hdy : 1e-5 ≤ |(c.screen_to_ray (c.projectExact p w h).1
        (c.projectExact p w h).2 w h).2.y|) :
    (c.unproject (c.projectExact p w h).1 (c.projectExact p w h).2 w h 0).x = p.x ∧
    (c.unproject (c.projectExact p w h).1 (c.projectExact p w h).2 w h 0).z = p.z := by
  have hzpos : 0 < c.camZ p := lt_trans (by norm_num) hz
  have hzne : c.camZ p ≠ 0 := hzpos.ne'
  have hunit := fwd_unit c hd
  have hsq : 0 < c.fwd.x ^ 2 + c.fwd.z ^ 2 := by
    rw [fwd_horiz c hd]
    exact pow_two_pos_of_ne_zero hv
  have hwpos : (0 : ℝ) < (w : ℝ) := by exact_mod_cast (by omega : (0 : ℤ) < w)
  have hhpos : (0 : ℝ) < (h : ℝ) := by exact_mod_cast (by omega : (0 : ℤ) < h)
  have hmaxw : ((max 1 w : ℤ) : ℝ) = (w : ℝ) := by rw [max_eq_right hw]
  have hmaxh : ((max 1 h : ℤ) : ℝ) = (h : ℝ) := by rw [max_eq_right hh]
  have haspect : aspect w h = (w : ℝ) / (h : ℝ) := by
    unfold aspect
    rw [hmaxh]
  have haspos : 0 < aspect w h := by
    rw [haspect]
    positivity
  have hasne : aspect w h ≠ 0 := haspos.ne'
  have hex : c.projectExact p w h =
      ((c.camX p / (c.camZ p * c.tanHalf) / aspect w h * 0.5 + 0.5) * (w : ℝ),
       (1.0 - (c.camY p / (c.camZ p * c.tanHalf) * 0.5 + 0.5)) * (h : ℝ)) := by
    unfold Camera.projectExact
    rw [if_neg (not_le.mpr hz)]
  have hndcx : ndcX (c.projectExact p w h).1 w
      = c.camX p / (c.camZ p * c.tanHalf) / aspect w h := by
    rw [hex]
    unfold ndcX
    dsimp
    rw [hmaxw]
    field_simp
    ring
  have hndcy : ndcY (c.projectExact p w h).2 h = c.camY p / (c.camZ p * c.tanHalf) := by
    rw [hex]
    unfold ndcY
    dsimp
    rw [hmaxh]
    field_simp
    ring
  have hrel := basis_expand c hunit hsq (p.x - c.get_position.x) (p.y - c.get_position.y)
    (p.z - c.get_position.z)
  have hdirraw : c.rayDirRaw (c.projectExact p w h).1 (c.projectExact p w h).2 w h =
      ⟨(p.x - c.get_position.x) / c.camZ p, (p.y - c.get_position.y) / c.camZ p,
       (p.z - c.get_position.z) / c.camZ p⟩ := by
    unfold Camera.rayDirRaw
    rw [hndcx, hndcy]
    ext
    · exact ray_component (c.camX p) (c.camY p) (c.camZ p) c.tanHalf (aspect w h)
        c.rightv.x c.upv.x c.fwd.x (p.x - c.get_position.x) hzne hth hasne hrel.1
    · exact ray_component (c.camX p) (c.camY p) (c.camZ p) c.tanHalf (aspect w h)
        c.rightv.y c.upv.y c.fwd.y (p.y - c.get_position.y) hzne hth hasne hrel.2.1
    · exact ray_component (c.camX p) (c.camY p) (c.camZ p) c.tanHalf (aspect w h)
        c.rightv.z c.upv.z c.fwd.z (p.z - c.get_position.z) hzne hth hasne hrel.2.2
  set L := Real.sqrt ((p.x - c.get_position.x) ^ 2 + (p.y - c.get_position.y) ^ 2 +
    (p.z - c.get_position.z) ^ 2) with hL
  have hsumpos : 0 < (p.x - c.get_position.x) ^ 2 + (p.y - c.get_position.y) ^ 2 +
      (p.z - c.get_position.z) ^ 2 := by
    by_contra hc
    push_neg at hc
    obtain ⟨h1, h2, h3⟩ := sum_sq_nonpos hc
    have hzero : c.camZ p = 0 := by
      unfold Camera.camZ
      rw [h1, h2, h3]
      ring
    exact hzne hzero
  have hLpos : 0 < L := Real.sqrt_pos.mpr hsumpos
  have hLne : L ≠ 0 := hLpos.ne'
  have hdl : c.rayDirLen (c.projectExact p w h).1 (c.projectExact p w h).2 w h
      = L / c.camZ p := by
    unfold Camera.rayDirLen
    rw [hdirraw]
    dsimp
    rw [sqrt_scaled _ _ _ _ hzpos, ← hL]
    rw [if_neg (div_ne_zero hLne hzne)]
  have hray : c.screen_to_ray (c.projectExact p w h).1 (c.projectExact p w h).2 w h =
      (c.get_position, ⟨(p.x - c.get_position.x) / L, (p.y - c.get_position.y) / L,
        (p.z - c.get_position.z) / L⟩) := by
    unfold Camera.screen_to_ray
    rw [hdirraw, hdl]
    dsimp
    norm_num [Prod.ext_iff]
    refine ⟨?_, ?_, ?_⟩
    · field_simp
    · field_simp
    · field_simp
  have hdy' : 1e-5 ≤ |(p.y - c.get_position.y) / L| := by
    rw [hray] at hdy
    simpa using hdy
  have hvyLne : (p.y - c.get_position.y) / L ≠ 0 := by
    intro h0
    rw [h0] at hdy'
    norm_num at hdy'
  have hvyne : p.y - c.get_position.y ≠ 0 := by
    intro h0
    exact hvyLne (by rw [h0, zero_div])
  have h0y : (0 : ℝ) - c.get_position.y = p.y - c.get_position.y := by
    rw [hy]
  have ht : ((0 : ℝ) - c.get_position.y) / ((p.y - c.get_position.y) / L) = L := by
    rw [h0y]
    rw [div_div_eq_mul_div, mul_comm, mul_div_assoc, div_self hvyne, mul_one]
  unfold Camera.unproject
  rw [hray]
  dsimp
  rw [ht]
  rw [if_neg (not_lt.mpr hdy'), if_neg (not_le.mpr hLpos)]
  constructor
  · dsimp
    rw [div_mul_cancel₀ _ hLne]
    ring
  · dsimp
    rw [div_mul_cancel₀ _ hLne]
    ring

/-- A fully non-degenerate camera: distance 1, angle_h 0, angle_v 45,
target at the origin, fov 90. -/
noncomputable def camW : Camera :=
  { distance := 1, angle_h := 0, angle_v := 45, target := ⟨0, 0, 0⟩, fov := 90 }

/-- The origin of the ground plane, used as the round-trip probe point. -/
noncomputable def origin3 : Point3D := ⟨0, 0, 0⟩

theorem camW_position : camW.get_position = ⟨Real.sqrt 2 / 2, Real.sqrt 2 / 2, 0⟩ := by
  unfold Camera.get_position
  rw [show camW.angle_v = 45 from rfl, show camW.angle_h = 0 from rfl,
    show radians (45 : ℝ) = Real.pi / 4 from by unfold radians; ring,
    show radians (0 : ℝ) = 0 from by unfold radians; ring,
    Real.cos_pi_div_four, Real.sin_pi_div_four, Real.cos_zero, Real.sin_zero]
  ext <;> norm_num [camW]

theorem camW_fwd : camW.fwd = ⟨-(Real.sqrt 2 / 2), -(Real.sqrt 2 / 2), 0⟩ := by
  unfold Camera.fwd Camera.forwardLen Camera.forwardRaw
  rw [camW_position, show camW.target = (⟨0, 0, 0⟩ : Point3D) from rfl]
  dsimp
  have h2 : Real.sqrt 2 ^ 2 = 2 := Real.sq_sqrt (by norm_num)
  have hfl : ((0 : ℝ) - Real.sqrt 2 / 2) ^ 2 + ((0 : ℝ) - Real.sqrt 2 / 2) ^ 2 +
      ((0 : ℝ) - 0) ^ 2 = 1 := by
    linear_combination h2 / 2
  rw [hfl, Real.sqrt_one]
  ext <;> norm_num

theorem camW_camZ : camW.camZ origin3 = 1 := by
  unfold Camera.camZ
  rw [camW_position, camW_fwd]
  dsimp
  have h2 : Real.sqrt 2 ^ 2 = 2 := Real.sq_sqrt (by norm_num)
  simp only [origin3]
  linear_combination h2 / 2

theorem camW_rightv : camW.rightv = ⟨0, 0, -1⟩ := by
  have hraw : camW.rightRaw = ⟨0, 0, -(Real.sqrt 2 / 2)⟩ := by
    rw [rightRaw_eq, camW_fwd]
    ext <;> norm_num
  have hlen : camW.rightLen = Real.sqrt 2 / 2 := by
    unfold Camera.rightLen
    rw [hraw]
    dsimp
    rw [show (0 : ℝ) ^ 2 + 0 ^ 2 + (-(Real.sqrt 2 / 2)) ^ 2 = (Real.sqrt 2 / 2) ^ 2 from by
      ring]
    rw [Real.sqrt_sq (by positivity)]
    rw [if_neg (show Real.sqrt 2 / 2 ≠ 0 from by positivity)]
  unfold Camera.rightv
  rw [hraw, hlen]
  ext <;> dsimp
  all_goals field_simp
  all_goals ring

theorem camW_camX : camW.camX origin3 = 0 := by
  unfold Camera.camX
  rw [camW_position, camW_rightv]
  dsimp
  simp only [origin3]
  ring

theorem camW_upv : camW.upv = ⟨-(Real.sqrt 2 / 2), Real.sqrt 2 / 2, 0⟩ := by
  unfold Camera.upv
  rw [camW_rightv, camW_fwd]
  ext <;> dsimp <;> ring

theorem camW_camY : camW.camY origin3 = 0 := by
  unfold Camera.camY
  rw [camW_position, camW_upv]
  dsimp
  simp only [origin3]
  ring

theorem camW_projectExact : camW.projectExact origin3 100 100 = (50, 50) := by
  unfold Camera.projectExact
  rw [camW_camZ, camW_camX, camW_camY]
  rw [if_neg (by norm_num : ¬ (1 : ℝ) ≤ 1e-3)]
  unfold aspect
  norm_num [Prod.ext_iff]

theorem camW_ray : camW.screen_to_ray 50 50 100 100 =
    (⟨Real.sqrt 2 / 2, Real.sqrt 2 / 2, 0⟩,
     ⟨-(Real.sqrt 2 / 2), -(Real.sqrt 2 / 2), 0⟩) := by
  unfold Camera.screen_to_ray Camera.rayDirLen Camera.rayDirRaw ndcX ndcY
  rw [camW_position, camW_rightv, camW_upv, camW_fwd]
  dsimp
  have h2 : Real.sqrt 2 ^ 2 = 2 := Real.sq_sqrt (by norm_num)
  have hz0 : ((50 : ℝ) / ((max 1 (100 : ℤ) : ℤ) : ℝ)) * 2 - 1 = 0 := by
    norm_num
  have hz1 : 1 - ((50 : ℝ) / ((max 1 (100 : ℤ) : ℤ) : ℝ)) * 2 = 0 := by
    norm_num
  rw [hz0, hz1]
  norm_num
  rw [show ((Real.sqrt 2 / 2) ^ 2 + (Real.sqrt 2 / 2) ^ 2 : ℝ) = 1 from by
    linear_combination h2 / 2, Real.sqrt_one]
  norm_num [Prod.ext_iff]

/-- One is at most the square root of two. -/
theorem one_le_sqrt_two : (1 : ℝ) ≤ Real.sqrt 2 := by
  rw [show (1 : ℝ) = Real.sqrt 1 from (Real.sqrt_one).symm]
  exact Real.sqrt_le_sqrt (by norm_num)

theorem camW_tanHalf : camW.tanHalf = 1 := by
  unfold Camera.tanHalf
  rw [show camW.fov = 90 from rfl,
    show radians (90 : ℝ) / 2 = Real.pi / 4 from by unfold radians; ring,
    Real.tan_pi_div_four]

/-- A ground-plane point whose projected abscissa under camW falls strictly
between two pixels, so the int() truncation of project loses information. -/
noncomputable def pz64 : Point3D := ⟨0, 0, 1/64⟩

theorem camW_camZ_pz : camW.camZ pz64 = 1 := by
  unfold Camera.camZ
  rw [camW_position, camW_fwd]
  dsimp
  have h2 : Real.sqrt 2 ^ 2 = 2 := Real.sq_sqrt (by norm_num)
  simp only [pz64]
  linear_combination h2 / 2

theorem camW_camX_pz : camW.camX pz64 = -(1/64) := by
  unfold Camera.camX
  rw [camW_position, camW_rightv]
  dsimp
  simp only [pz64]
  ring

theorem camW_camY_pz : camW.camY pz64 = 0 := by
  unfold Camera.camY
  rw [camW_position, camW_upv]
  dsimp
  simp only [pz64]
  ring

theorem camW_projectExact_pz : camW.projectExact pz64 100 100 = (1575/32, 50) := by
  unfold Camera.projectExact
  rw [camW_camZ_pz, camW_camX_pz, camW_camY_pz, camW_tanHalf]
  rw [if_neg (by norm_num : ¬ (1 : ℝ) ≤ 1e-3)]
  unfold aspect
  norm_num [Prod.ext_iff]

theorem camW_project_pz : camW.project pz64 100 100 = (49, 50) := by
  unfold Camera.project
  rw [camW_projectExact_pz]
  have hfl : (⌊(1575 : ℝ) / 32⌋ : ℤ) = 49 := by
    rw [Int.floor_eq_iff]
    constructor <;> norm_num
  norm_num [pyTrunc, Prod.ext_iff, hfl]

/-- The square root of 2501, the squared length scale of the pixel-(49,50)
ray under camW, is positive. -/
theorem sqrt2501_pos : (0 : ℝ) < Real.sqrt 2501 := Real.sqrt_pos.mpr (by norm_num)

/-- The square root of 2501 is at most 51. -/
theorem sqrt2501_le : Real.sqrt 2501 ≤ 51 := by
  rw [show (51 : ℝ) = Real.sqrt (51 ^ 2) from (Real.sqrt_sq (by norm_num)).symm]
  exact Real.sqrt_le_sqrt (by norm_num)

theorem camW_rayDirRaw49 : camW.rayDirRaw 49 50 100 100 =
    ⟨-(Real.sqrt 2 / 2), -(Real.sqrt 2 / 2), 1 / 50⟩ := by
  unfold Camera.rayDirRaw ndcX ndcY aspect
  rw [camW_rightv, camW_upv, camW_fwd, camW_tanHalf]
  ext <;> dsimp <;> norm_num

theorem camW_rayDirLen49 : camW.rayDirLen 49 50 100 100 = Real.sqrt 2501 / 50 := by
  unfold Camera.rayDirLen
  rw [camW_rayDirRaw49]
  dsimp
  have h2 : Real.sqrt 2 ^ 2 = 2 := Real.sq_sqrt (by norm_num)
  have hsum : (-(Real.sqrt 2 / 2)) ^ 2 + (-(Real.sqrt 2 / 2)) ^ 2 + ((1 : ℝ) / 50) ^ 2
      = 2501 / 2500 := by
    linear_combination h2 / 2
  rw [hsum]
  have hq : Real.sqrt ((2501 : ℝ) / 2500) = Real.sqrt 2501 / 50 := by
    rw [show ((2501 : ℝ) / 2500) = 2501 / 50 ^ 2 from by norm_num,
      Real.sqrt_div (by norm_num : (0 : ℝ) ≤ 2501) ((50 : ℝ) ^ 2),
      Real.sqrt_sq (by norm_num : (0 : ℝ) ≤ 50)]
  rw [hq, if_neg (by positivity : (0 : ℝ) < Real.sqrt 2501 / 50).ne']

theorem camW_ray49 : camW.screen_to_ray 49 50 100 100 =
    (⟨Real.sqrt 2 / 2, Real.sqrt 2 / 2, 0⟩,
     ⟨-(25 * Real.sqrt 2 / Real.sqrt 2501), -(25 * Real.sqrt 2 / Real.sqrt 2501),
      1 / Real.sqrt 2501⟩) := by
  unfold Camera.screen_to_ray
  rw [camW_position, camW_rayDirRaw49, camW_rayDirLen49]
  have hqne : Real.sqrt 2501 ≠ 0 := sqrt2501_pos.ne'
  refine Prod.ext rfl ?_
  ext <;> dsimp
  · field_simp
    ring
  · field_simp
    ring
  · field_simp

/-- The ray through pixel (49, 50) of camW is far from the near-parallel
guard. -/
theorem camW_dirY49_large :
    (1e-5 : ℝ) ≤ |(-(25 * Real.sqrt 2 / Real.sqrt 2501))| := by
  rw [abs_neg, abs_of_nonneg (by positivity : (0 : ℝ) ≤ 25 * Real.sqrt 2 / Real.sqrt 2501)]
  calc (1e-5 : ℝ) ≤ 25 / 51 := by norm_num
  _ ≤ 25 * Real.sqrt 2 / Real.sqrt 2501 := by
      apply div_le_div (by positivity) ?_ sqrt2501_pos sqrt2501_le
      nlinarith [one_le_sqrt_two]

/-- The intersection parameter of the pixel-(49,50) ray of camW with the
ground plane. -/
theorem camW_t49 : ((0 : ℝ) - Real.sqrt 2 / 2) / (-(25 * Real.sqrt 2 / Real.sqrt 2501))
    = Real.sqrt 2501 / 50 := by
  have hqne : Real.sqrt 2501 ≠ 0 := sqrt2501_pos.ne'
  have hsne : Real.sqrt 2 ≠ 0 := (Real.sqrt_pos.mpr (by norm_num)).ne'
  field_simp
  ring

theorem camW_unproject49 : camW.unproject 49 50 100 100 0 = ⟨0, 0, 1 / 50⟩ := by
  unfold Camera.unproject
  rw [camW_ray49]
  dsimp only
  rw [if_neg (not_lt.mpr camW_dirY49_large), camW_t49,
    if_neg (not_le.mpr (by positivity : (0 : ℝ) < Real.sqrt 2501 / 50))]
  have hqne : Real.sqrt 2501 ≠ 0 := sqrt2501_pos.ne'
  ext <;> dsimp
  · field_simp
    ring
  · field_simp

/-- C4 counterexample: under the ordinary 45-degree camera camW (distance 1,
angle_h 0, angle_v 45, fov 90) the ground-plane point pz64 = (0, 0, 1/64) is
in front of the camera (camera-space depth 1 > 1e-3) and the ray through the
projected pixel is not degenerate (|direction.y| = 25*sqrt 2/sqrt 2501, about
0.707, with a positive intersection parameter), yet project truncates the
exact screen abscissa 1575/32 = 49.21875 to the pixel (49, 50), and unproject
at that pixel with plane y = 0 returns z = 1/50, not the original z = 1/64:
project followed by unproject does not recover the world (x, z).  The IEEE
trace of the source computes the same pixel (49, 50) and recovers
z = 0.020000000000000014 from the original 0.015625. -/
theorem project_unproject_gap :
    pz64.y = 0 ∧
    1e-3 < camW.camZ pz64 ∧
    1e-5 ≤ |(camW.screen_to_ray ((camW.project pz64 100 100).1 : ℝ)
        ((camW.project pz64 100 100).2 : ℝ) 100 100).2.y| ∧
    0 < ((0 : ℝ) - (camW.screen_to_ray ((camW.project pz64 100 100).1 : ℝ)
          ((camW.project pz64 100 100).2 : ℝ) 100 100).1.y) /
        (camW.screen_to_ray ((camW.project pz64 100 100).1 : ℝ)
          ((camW.project pz64 100 100).2 : ℝ) 100 100).2.y ∧
    (camW.unproject ((camW.project pz64 100 100).1 : ℝ)
        ((camW.project pz64 100 100).2 : ℝ) 100 100 0).z ≠ pz64.z := by
  rw [camW_project_pz]
  have h1 : (((49, 50) : ℤ × ℤ).1 : ℝ) = 49 := by norm_num
  have h2 : (((49, 50) : ℤ × ℤ).2 : ℝ) = 50 := by norm_num
  rw [h1, h2, camW_ray49, camW_camZ_pz, camW_unproject49]
  refine ⟨rfl, by norm_num, ?_, ?_, ?_⟩
  · exact camW_dirY49_large
  · dsimp only
    rw [camW_t49]
    positivity
  · show (1 : ℝ) / 50 ≠ pz64.z
    norm_num [pz64]

/-- C4 witness: the 45-degree camera and the ground-plane origin satisfy every
hypothesis of the amended round trip, and the round trip recovers (x, z). -/
theorem projectExact_unproject_roundtrip_witness :
    (camW.unproject (camW.projectExact origin3 100 100).1
        (camW.projectExact origin3 100 100).2 100 100 0).x = origin3.x ∧
    (camW.unproject (camW.projectExact origin3 100 100).1
        (camW.projectExact origin3 100 100).2 100 100 0).z = origin3.z := by
  apply projectExact_unproject_roundtrip camW origin3 100 100
  · show origin3.y = 0
    rfl
  · show (0 : ℝ) < camW.distance
    norm_num [camW]
  · show Real.cos (radians camW.angle_v) ≠ 0
    rw [show camW.angle_v = 45 from rfl,
      show radians (45 : ℝ) = Real.pi / 4 from by unfold radians; ring,
      Real.cos_pi_div_four]
    positivity
  · show camW.tanHalf ≠ 0
    unfold Camera.tanHalf
    rw [show camW.fov = 90 from rfl,
      show radians (90 : ℝ) / 2 = Real.pi / 4 from by unfold radians; ring,
      Real.tan_pi_div_four]
    norm_num
  · norm_num
  · norm_num
  · rw [camW_camZ]
    norm_num
  · rw [camW_projectExact]
    have h1 : (((50 : ℝ), (50 : ℝ)).1 : ℝ) = 50 := rfl
    have h2 : (((50 : ℝ), (50 : ℝ)).2 : ℝ) = 50 := rfl
    rw [h1, h2, camW_ray]
    dsimp
    rw [abs_neg, abs_of_nonneg (by positivity : (0 : ℝ) ≤ Real.sqrt 2 / 2)]
    nlinarith [one_le_sqrt_two]

/-- Squared world distance from the camera position to an object
(app.py lines 393-397, dist2 inside get_object_at_mouse). -/
noncomputable def dist2 (cam_pos : Point3D) (o : Object3D) : ℝ :=
  (o.position.x - cam_pos.x) * (o.position.x - cam_pos.x) +
  (o.position.y - cam_pos.y) * (o.position.y - cam_pos.y) +
  (o.position.z - cam_pos.z) * (o.position.z - cam_pos.z)

/-- Per-type base hit radius (app.py line 403): the dict lookup with default
40. -/
noncomputable def hitBase (t : String) : ℝ :=
  if t = "chair" then 40
  else if t = "desk" then 60
  else if t = "table" then 80
  else if t = "podium" then 45
  else if t = "cabinet" then 50
  else 40

/-- Screen-space distance from the mouse to an object's projected position:
math.hypot of the integer pixel deltas (app.py lines 399-402). -/
noncomputable def Camera.screenDist (c : Camera) (mouse : ℤ × ℤ) (o : Object3D) (w h : ℤ) : ℝ :=
  Real.sqrt ((((mouse.1 - (c.project o.position w h).1 : ℤ) : ℝ)) ^ 2 +
    (((mouse.2 - (c.project o.position w h).2 : ℤ) : ℝ)) ^ 2)

/-- The sort key comparison used by sorted(self.objects, key=dist2). -/
noncomputable def distLe (c : Camera) : Object3D → Object3D → Bool :=
  fun a b => decide (dist2 c.get_position a ≤ dist2 c.get_position b)

/-- The acceptance test d <= hit_radius (app.py lines 403-406). -/
noncomputable def hitTest (c : Camera) (mouse : ℤ × ℤ) (w h : ℤ) : Object3D → Bool :=
  fun o => decide (c.screenDist mouse o w h ≤ hitBase o.obj_type * o.scale)

/-- app.py get_object_at_mouse (lines 389-407): none on an empty scene;
otherwise sort the objects by ascending squared distance from the camera
position (Python sorted is a stable sort, modelled by the stable mergeSort)
and return the first object whose projected screen position lies within its
per-type scaled pixel radius of the mouse. -/
noncomputable def get_object_at_mouse (c : Camera) (objects : List Object3D)
    (mouse : ℤ × ℤ) (w h : ℤ) : Option Object3D :=
  if objects.isEmpty then none
  else (objects.mergeSort (distLe c)).find? (hitTest c mouse w h)

theorem distLe_trans (c : Camera) : ∀ a b d : Object3D,
    distLe c a b = true → distLe c b d = true → distLe c a d = true := by
  intro a b d hab hbd
  simp only [distLe, decide_eq_true_eq] at *
  exact le_trans hab hbd

theorem distLe_total (c : Camera) : ∀ a b : Object3D,
    (distLe c a b || distLe c b a) = true := by
  intro a b
  simp only [distLe, Bool.or_eq_true, decide_eq_true_eq]
  exact le_total _ _

/-- C7: the hit test returns only objects that are within their scaled
per-type radius of the pointer, never skipping a strictly nearer hit object
(the scan is in ascending order of squared camera distance); it finds a hit
whenever one exists; and in a two-object scene where both objects are within
their radii, the strictly nearer one is returned. -/
theorem hit_test_nearest (c : Camera) (objects : List Object3D) (mouse : ℤ × ℤ) (w h : ℤ) :
    (∀ r, get_object_at_mouse c objects mouse w h = some r →
      r ∈ objects ∧
      c.screenDist mouse r w h ≤ hitBase r.obj_type * r.scale ∧
      ∀ o ∈ objects, dist2 c.get_position o < dist2 c.get_position r →
        ¬ (c.screenDist mouse o w h ≤ hitBase o.obj_type * o.scale)) ∧
    ((∃ o ∈ objects, c.screenDist mouse o w h ≤ hitBase o.obj_type * o.scale) →
      ∃ r, get_object_at_mouse c objects mouse w h = some r) ∧
    (∀ a b, objects = [a, b] ∨ objects = [b, a] →
      c.screenDist mouse a w h ≤ hitBase a.obj_type * a.scale →
      c.screenDist mouse b w h ≤ hitBase b.obj_type * b.scale →
      dist2 c.get_position a < dist2 c.get_position b →
      get_object_at_mouse c objects mouse w h = some a) := by
  have hperm := List.mergeSort_perm objects (distLe c)
  have hsorted := List.sorted_mergeSort (distLe_trans c) (distLe_total c) objects
  have main : ∀ r, get_object_at_mouse c objects mouse w h = some r →
      r ∈ objects ∧
      c.screenDist mouse r w h ≤ hitBase r.obj_type * r.scale ∧
      ∀ o ∈ objects, dist2 c.get_position o < dist2 c.get_position r →
        ¬ (c.screenDist mouse o w h ≤ hitBase o.obj_type * o.scale) := by
    intro r hr
    unfold get_object_at_mouse at hr
    by_cases hne : objects.isEmpty
    · rw [if_pos hne] at hr
      exact absurd hr (by simp)
    · rw [if_neg hne] at hr
      obtain ⟨hp, as', bs', heq, hfail⟩ := List.find?_eq_some.mp hr
      have hrmem : r ∈ objects := hperm.mem_iff.mp (List.mem_of_find?_eq_some hr)
      have hrhit : c.screenDist mouse r w h ≤ hitBase r.obj_type * r.scale := by
        simpa [hitTest, decide_eq_true_eq] using hp
      refine ⟨hrmem, hrhit, ?_⟩
      intro o ho hlt hohit
      have homem : o ∈ objects.mergeSort (distLe c) := hperm.mem_iff.mpr ho
      rw [heq] at homem hsorted
      rcases List.mem_append.mp homem with hin | hin
      · have hlt' := hfail o hin
        simp only [hitTest, Bool.not_eq_true', decide_eq_false_iff_not] at hlt'
        exact hlt' hohit
      · rcases List.mem_cons.mp hin with rfl | hin
        · exact lt_irrefl _ hlt
        · have hpair := (List.pairwise_append.mp hsorted).2.1
          have hle := (List.pairwise_cons.mp hpair).1 o hin
          simp only [distLe, decide_eq_true_eq] at hle
          exact absurd hlt (not_lt.mpr hle)
  refine ⟨main, ?_, ?_⟩
  · rintro ⟨o, ho, hohit⟩
    have hne : ¬ objects.isEmpty := by
      intro hemp
      rw [List.isEmpty_iff.mp hemp] at ho
      exact absurd ho (List.not_mem_nil o)
    have hmem : o ∈ objects.mergeSort (distLe c) := hperm.mem_iff.mpr ho
    have hsome : ((objects.mergeSort (distLe c)).find? (hitTest c mouse w h)).isSome := by
      rw [List.find?_isSome]
      exact ⟨o, hmem, by simpa [hitTest, decide_eq_true_eq] using hohit⟩
    obtain ⟨r, hr⟩ := Option.isSome_iff_exists.mp hsome
    refine ⟨r, ?_⟩
    unfold get_object_at_mouse
    rw [if_neg hne]
    exact hr
  · intro a b hab hahit hbhit hlt
    have hamem : a ∈ objects := by
      rcases hab with rfl | rfl <;> simp
    obtain ⟨r, hr⟩ := (by
      rintro ⟨o, ho, hohit⟩
      have hne : ¬ objects.isEmpty := by
        intro hemp
        rw [List.isEmpty_iff.mp hemp] at ho
        exact absurd ho (List.not_mem_nil o)
      have hmem : o ∈ objects.mergeSort (distLe c) := hperm.mem_iff.mpr ho
      have hsome : ((objects.mergeSort (distLe c)).find? (hitTest c mouse w h)).isSome := by
        rw [List.find?_isSome]
        exact ⟨o, hmem, by simpa [hitTest, decide_eq_true_eq] using hohit⟩
      obtain ⟨r, hr⟩ := Option.isSome_iff_exists.mp hsome
      refine ⟨r, ?_⟩
      unfold get_object_at_mouse
      rw [if_neg hne]
      exact hr : (∃ o ∈ objects, c.screenDist mouse o w h ≤ hitBase o.obj_type * o.scale) →
        ∃ r, get_object_at_mouse c objects mouse w h = some r) ⟨a, hamem, hahit⟩
    obtain ⟨hrmem, hrhit, hrnear⟩ := main r hr
    have hreq : r = a := by
      have : r = a ∨ r = b := by
        rcases hab with rfl | rfl
        · simpa using hrmem
        · exact Or.symm (by simpa using hrmem)
      rcases this with rfl | rfl
      · rfl
      · exact absurd hahit (hrnear a hamem hlt)
    rw [hreq] at hr
    exact hr

/-- Under camTop every ground-plane point is in front of the camera at depth 1
and projects to the screen centre (the degenerate basis zeroes both screen
offsets). -/
theorem camTop_project_ground (p : Point3D) (hp : p.y = 0) :
    camTop.project p 100 100 = (50, 50) := by
  have hz : camTop.camZ p = 1 := by
    unfold Camera.camZ
    rw [camTop_position, camTop_fwd]
    dsimp
    rw [hp]
    ring
  have hx : camTop.camX p = 0 := by
    unfold Camera.camX
    rw [camTop_position, camTop_rightv]
    dsimp
    ring
  have hy2 : camTop.camY p = 0 := by
    unfold Camera.camY
    rw [camTop_position, camTop_upv]
    dsimp
    ring
  unfold Camera.project Camera.projectExact
  rw [hz, hx, hy2]
  rw [if_neg (by norm_num : ¬ (1 : ℝ) ≤ 1e-3)]
  unfold aspect
  norm_num [pyTrunc, Prod.ext_iff]

/-- A unit-scale chair at the origin of the ground plane. -/
noncomputable def chairA : Object3D :=
  { name := "chair", position := ⟨0, 0, 0⟩, rotation := 0, obj_type := "chair"
    id := 1, scale := 1 }

/-- A second unit-scale chair farther from the camTop camera. -/
noncomputable def chairB : Object3D :=
  { name := "chair", position := ⟨3, 0, 0⟩, rotation := 0, obj_type := "chair"
    id := 2, scale := 1 }

/-- Under camTop with the pointer at the screen centre, both chairs pass the
hit test: their screen distance is 0 and their scaled radius is 40. -/
theorem chairA_hit :
    camTop.screenDist (50, 50) chairA 100 100 ≤ hitBase chairA.obj_type * chairA.scale := by
  unfold Camera.screenDist
  rw [show chairA.position = (⟨0, 0, 0⟩ : Point3D) from rfl,
    camTop_project_ground ⟨0, 0, 0⟩ rfl]
  norm_num [Real.sqrt_zero, hitBase, chairA]

theorem chairB_hit :
    camTop.screenDist (50, 50) chairB 100 100 ≤ hitBase chairB.obj_type * chairB.scale := by
  unfold Camera.screenDist
  rw [show chairB.position = (⟨3, 0, 0⟩ : Point3D) from rfl,
    camTop_project_ground ⟨3, 0, 0⟩ rfl]
  norm_num [Real.sqrt_zero, hitBase, chairB]

theorem chairA_nearer :
    dist2 camTop.get_position chairA < dist2 camTop.get_position chairB := by
  unfold dist2
  rw [camTop_position]
  norm_num [chairA, chairB]

/-- C7 witness: two overlapping chairs at the centre of the screen under
camTop; the hit test returns the one nearer to the camera. -/
theorem hit_test_nearest_witness :
    get_object_at_mouse camTop [chairA, chairB] (50, 50) 100 100 = some chairA :=
  (hit_test_nearest camTop [chairA, chairB] (50, 50) 100 100).2.2 chairA chairB
    (Or.inl rfl) chairA_hit chairB_hit chairA_nearer

/-- The click-versus-drag test of the secondary-button release (app.py lines
327-331): squared pixel displacement from the recorded drag start, compared
with the fixed threshold: was_drag iff dx*dx + dy*dy > 9 (False when no start
was recorded). -/
def wasDrag (start : Option (ℤ × ℤ)) (pos : ℤ × ℤ) : Bool :=
  match start with
  | some s => decide ((pos.1 - s.1) * (pos.1 - s.1) + (pos.2 - s.2) * (pos.2 - s.2) > 9)
  | none => false

/-- The unconditional effects of the secondary-button release (app.py lines
332-333): dragging stops and the recorded start is cleared. -/
def clearRight (st : AppState) : AppState :=
  { st with dragging_camera := false, right_click_start := none }

/-- app.py handle_events, pointer-up of the secondary button (lines 326-343):
classify the release with wasDrag; a click (not a drag) hit-tests the object
under the pointer and, when one is found, removes it by id, clears the
selection and commits a history snapshot. -/
noncomputable def handleRightUp (c : Camera) (w h : ℤ) (st : AppState) (pos : ℤ × ℤ) : AppState :=
  if wasDrag st.right_click_start pos then clearRight st
  else
    match get_object_at_mouse c st.objects pos w h with
    | some obj => save_state { clearRight st with
        objects := st.objects.filter (fun o => decide (o.id ≠ obj.id))
        selected_object := none }
    | none => clearRight st

theorem save_state_objects (st : AppState) : (save_state st).objects = st.objects := by
  unfold save_state
  split <;> rfl

theorem save_state_selected (st : AppState) :
    (save_state st).selected_object = st.selected_object := by
  unfold save_state
  split <;> rfl

/-- On a single-object scene the hit test returns that object whenever it
passes the radius test. -/
theorem get_object_singleton (c : Camera) (o : Object3D) (mouse : ℤ × ℤ) (w h : ℤ)
    (hhit : c.screenDist mouse o w h ≤ hitBase o.obj_type * o.scale) :
    get_object_at_mouse c [o] mouse w h = some o := by
  unfold get_object_at_mouse
  rw [if_neg (by simp)]
  rw [List.mergeSort_singleton]
  exact List.find?_cons_of_pos _ (by simpa [hitTest, decide_eq_true_eq] using hhit)

/-- The state of the counterexample: one committed chair in the scene, a
camera drag recorded as starting at (47, 50). -/
noncomputable def stC9 : AppState :=
  { objects := [chairA]
    history := [[copyObj chairA]]
    history_index := 0
    dragging_camera := true
    right_click_start := some (47, 50) }

/-- C9 counterexample: releasing the secondary button at (50, 50) after a
recorded start at (47, 50) gives squared displacement exactly 9, which is NOT
below the threshold 9; the claim therefore calls this release a camera-orbit
drag with no deletion, yet the code treats it as a click and deletes the chair
under the pointer. -/
theorem rightup_boundary_deletes :
    ((50 : ℤ) - 47) * ((50 : ℤ) - 47) + ((50 : ℤ) - 50) * ((50 : ℤ) - 50) = 9 ∧
    ¬ (((50 : ℤ) - 47) * ((50 : ℤ) - 47) + ((50 : ℤ) - 50) * ((50 : ℤ) - 50) < 9) ∧
    stC9.right_click_start = some (47, 50) ∧
    stC9.objects = [chairA] ∧
    (handleRightUp camTop 100 100 stC9 (50, 50)).objects = [] := by
  refine ⟨by decide, by decide, rfl, rfl, ?_⟩
  have hg : get_object_at_mouse camTop stC9.objects (50, 50) 100 100 = some chairA := by
    rw [show stC9.objects = [chairA] from rfl]
    exact get_object_singleton camTop chairA (50, 50) 100 100 chairA_hit
  unfold handleRightUp
  rw [show wasDrag stC9.right_click_start (50, 50) = false from by decide]
  rw [if_neg (by simp : ¬ false = true)]
  rw [hg, save_state_objects]
  rfl

/-- C9 (amended): on a secondary-button release with a recorded drag start,
a squared pixel displacement of AT MOST 9 px² is treated as a click: the
object under the pointer (if any) is hit-tested, removed from the scene by id,
the selection cleared and a history snapshot committed via save_state; a
squared displacement strictly greater than 9 px² is treated as a completed
camera-orbit drag: no object is deleted and the history is untouched. -/
theorem rightup_click_threshold (c : Camera) (w h : ℤ) (st : AppState) (pos s : ℤ × ℤ)
    (hstart : st.right_click_start = some s) :
    ((pos.1 - s.1) * (pos.1 - s.1) + (pos.2 - s.2) * (pos.2 - s.2) ≤ 9 →
      (∀ obj, get_object_at_mouse c st.objects pos w h = some obj →
        handleRightUp c w h st pos =
          save_state { clearRight st with
            objects := st.objects.filter (fun o => decide (o.id ≠ obj.id))
            selected_object := none } ∧
        (handleRightUp c w h st pos).objects =
          st.objects.filter (fun o => decide (o.id ≠ obj.id)) ∧
        (handleRightUp c w h st pos).selected_object = none) ∧
      (get_object_at_mouse c st.objects pos w h = none →
        handleRightUp c w h st pos = clearRight st)) ∧
    (9 < (pos.1 - s.1) * (pos.1 - s.1) + (pos.2 - s.2) * (pos.2 - s.2) →
      handleRightUp c w h st pos = clearRight st ∧
      (handleRightUp c w h st pos).objects = st.objects ∧
      (handleRightUp c w h st pos).history = st.history) := by
  constructor
  · intro hle
    have hwd : wasDrag st.right_click_start pos = false := by
      rw [hstart]
      simp only [wasDrag, gt_iff_lt, decide_eq_false_iff_not, not_lt]
      exact hle
    constructor
    · intro obj hobj
      have hmain : handleRightUp c w h st pos =
          save_state { clearRight st with
            objects := st.objects.filter (fun o => decide (o.id ≠ obj.id))
            selected_object := none } := by
        unfold handleRightUp
        rw [hwd, if_neg (by simp : ¬ false = true), hobj]
      refine ⟨hmain, ?_, ?_⟩
      · rw [hmain, save_state_objects]
      · rw [hmain, save_state_selected]
    · intro hnone
      unfold handleRightUp
      rw [hwd, if_neg (by simp : ¬ false = true), hnone]
  · intro hgt
    have hwd : wasDrag st.right_click_start pos = true := by
      rw [hstart]
      simp only [wasDrag, gt_iff_lt, decide_eq_true_eq]
      exact hgt
    have hmain : handleRightUp c w h st pos = clearRight st := by
      unfold handleRightUp
      rw [hwd, if_pos rfl]
    exact ⟨hmain, by rw [hmain]; rfl, by rw [hmain]; rfl⟩

/-- C9 witness: the same scene released at squared displacement 9 takes the
click path and commits the deletion through save_state. -/
theorem rightup_click_threshold_witness :
    handleRightUp camTop 100 100 stC9 (50, 50) =
      save_state { clearRight stC9 with
        objects := stC9.objects.filter (fun o => decide (o.id ≠ chairA.id))
        selected_object := none } := by
  have hg : get_object_at_mouse camTop stC9.objects (50, 50) 100 100 = some chairA := by
    rw [show stC9.objects = [chairA] from rfl]
    exact get_object_singleton camTop chairA (50, 50) 100 100 chairA_hit
  exact (((rightup_click_threshold camTop 100 100 stC9 (50, 50) (47, 50) rfl).1
    (by decide)).1 chairA hg).1

end ARPlan

